import Mathlib

/-!
Verification development for the content-publisher pipeline
(`src/util/parsers.js`, `src/workers/extract-input.js`,
`src/workers/publish-draft.js` and the coordinator entry point).

The JavaScript code is shallowly embedded: DOM nodes become an explicit
mutual inductive tree with integer identities (JS object identity and the
mutable `_processed` flag become an identity set threaded through the
traversal), network calls (WordPress REST lookups) and `JSON.parse` become
explicit environment functions, and thrown exceptions become `Except`.
All string primitives (`trim`, `split`, `includes`, `replace`,
whitespace regexes) are re-implemented structurally on `List Char` so that
every definition evaluates by kernel reduction.
-/

/-- The JavaScript whitespace class: the character set matched by `\s` in a
JS regex, which is also the set trimmed by `String.prototype.trim`. -/
def isJsWS (c : Char) : Bool :=
  let n := c.toNat
  n == 9 || n == 10 || n == 11 || n == 12 || n == 13 || n == 32 ||
  n == 0xa0 || n == 0x1680 || (0x2000 ≤ n && n ≤ 0x200a) ||
  n == 0x2028 || n == 0x2029 || n == 0x202f || n == 0x205f ||
  n == 0x3000 || n == 0xfeff

/-- Drop leading JS whitespace. -/
def dropWSLeft (l : List Char) : List Char := l.dropWhile isJsWS

/-- `String.prototype.trim`: drop JS whitespace from both ends. -/
def trimCL (l : List Char) : List Char :=
  ((dropWSLeft l).reverse.dropWhile isJsWS).reverse

/-- `String.prototype.trim` lifted to `String`. -/
def jsTrim (s : String) : String := ⟨trimCL s.data⟩

/-- `replace(/\s+/g, ' ')`: collapse every maximal run of JS whitespace into a
single space.  The boolean flag records whether the previous character was
whitespace (so the run only emits one space). -/
def collapseWS : Bool → List Char → List Char
  | _, [] => []
  | prevWS, c :: rest =>
    if isJsWS c then
      if prevWS then collapseWS true rest
      else ' ' :: collapseWS true rest
    else c :: collapseWS false rest

/-- `parseText` from `src/util/parsers.js`:
`text.trim()` followed by `.replace(/\s+/g, ' ')`. -/
def parseText (text : String) : String :=
  ⟨collapseWS false (trimCL text.data)⟩

/-- Auxiliary for `String.prototype.split(sep)`: accumulator holds the current
segment reversed. -/
def splitAuxCL (sep : Char) : List Char → List Char → List (List Char)
  | [], acc => [acc.reverse]
  | c :: rest, acc =>
    if c == sep then acc.reverse :: splitAuxCL sep rest []
    else splitAuxCL sep rest (c :: acc)

/-- `String.prototype.split` with a single-character separator. -/
def jsSplit (s : String) (sep : Char) : List String :=
  (splitAuxCL sep s.data []).map String.mk

/-- Substring occurrence on character lists (JS `String.prototype.includes`). -/
def containsSubCL : List Char → List Char → Bool
  | hs, sub =>
    if sub.isPrefixOf hs then true
    else match hs with
      | [] => false
      | _ :: t => containsSubCL t sub

/-- JS `haystack.includes(needle)`. -/
def jsIncludes (haystack needle : String) : Bool :=
  containsSubCL haystack.data needle.data

/-- The suffix of the haystack starting at the first occurrence of `sub`
(`none` when `sub` does not occur).  Used to model leftmost regex matches. -/
def suffixFromCL : List Char → List Char → Option (List Char)
  | hs, sub =>
    if sub.isPrefixOf hs then some hs
    else match hs with
      | [] => none
      | _ :: t => suffixFromCL t sub

/-- JS `String.prototype.toLowerCase` (ASCII portion, which is all the code
compares against). -/
def jsToLower (s : String) : String := ⟨s.data.map Char.toLower⟩

/-- `replace(/c/g, '')`: delete every occurrence of one character. -/
def removeCharAll (c : Char) (s : String) : String := ⟨s.data.filter (· != c)⟩

/-- The single-quote character, kept out of string literals. -/
def squote : Char := Char.ofNat 39

/-- Lower-case hexadecimal digit, for JSON control-character escapes. -/
def hexDigit (n : Nat) : Char :=
  if n < 10 then Char.ofNat (48 + n) else Char.ofNat (87 + n)

/-- How `JSON.stringify` escapes one character inside a string literal. -/
def jsonEscapeChar (c : Char) : List Char :=
  if c == '"' then ['\\', '"']
  else if c == '\\' then ['\\', '\\']
  else if c == Char.ofNat 8 then ['\\', 'b']
  else if c == Char.ofNat 9 then ['\\', 't']
  else if c == Char.ofNat 10 then ['\\', 'n']
  else if c == Char.ofNat 12 then ['\\', 'f']
  else if c == Char.ofNat 13 then ['\\', 'r']
  else if c.toNat < 32 then
    ['\\', 'u', '0', '0', hexDigit (c.toNat / 16), hexDigit (c.toNat % 16)]
  else [c]

/-- `JSON.stringify` of a string value, quotes included. -/
def jsonQuote (s : String) : String :=
  ⟨'"' :: (s.data.map jsonEscapeChar).flatten ++ ['"']⟩

/-!
## DOM model

JSDOM trees are embedded as a mutual inductive: element nodes
(`nodeType === 1`) carry a tag name, an optional `href` attribute and a
child list; text nodes (`nodeType === 3`) carry their text.  Every node
carries a numeric identity standing for JS object identity: the mutable
`_processed` flag of the source becomes a set of identities threaded
through the traversal, and `node === other` becomes identity equality.
-/

mutual
inductive Node where
  | text (id : Nat) (content : String)
  | elem (id : Nat) (tag : String) (href : Option String) (children : NodeList)

inductive NodeList where
  | nil
  | cons (head : Node) (tail : NodeList)
end

/-- Build a `NodeList` from a `List Node`. -/
def nodeListOf (l : List Node) : NodeList := l.foldr .cons .nil

def Node.id : Node → Nat
  | .text i _ => i
  | .elem i _ _ _ => i

/-- `nodeType === 1`. -/
def Node.isElem : Node → Bool
  | .text _ _ => false
  | .elem _ _ _ _ => true

/-- `tagName` (empty for text nodes, which the source never queries). -/
def Node.tagName : Node → String
  | .text _ _ => ""
  | .elem _ t _ _ => t

/-- `node.tagName.toLowerCase()`. -/
def Node.tagLower (n : Node) : String := jsToLower n.tagName

/-- `getAttribute('href')`. -/
def Node.href : Node → Option String
  | .text _ _ => none
  | .elem _ _ h _ => h

/-- `node.childNodes`. -/
def Node.children : Node → NodeList
  | .text _ _ => .nil
  | .elem _ _ _ cs => cs

mutual
/-- `node.textContent`: concatenation of all descendant text. -/
def Node.textContent : Node → String
  | .text _ c => c
  | .elem _ _ _ cs => NodeList.textConcat cs

def NodeList.textConcat : NodeList → String
  | .nil => ""
  | .cons h t => h.textContent ++ NodeList.textConcat t
end

mutual
/-- Identities of a node and all its descendants. -/
def Node.subIds : Node → List Nat
  | .text i _ => [i]
  | .elem i _ _ cs => i :: NodeList.subIdsL cs

def NodeList.subIdsL : NodeList → List Nat
  | .nil => []
  | .cons h t => h.subIds ++ NodeList.subIdsL t
end

/-- Identities of the direct children (`Array.from(node.childNodes)`). -/
def NodeList.childIds : NodeList → List Nat
  | .nil => []
  | .cons h t => h.id :: NodeList.childIds t

def Node.childIds (n : Node) : List Nat := n.children.childIds

/-- `node.contains(other)`: `other` is `node` itself or a descendant.
Identity-based, like the DOM call. -/
def Node.containsNode (n : Node) (other : Node) : Bool :=
  n.subIds.contains other.id

/-- `node.lastElementChild`: the last child with `nodeType === 1`. -/
def NodeList.lastElem : NodeList → Option Node
  | .nil => none
  | .cons h t =>
    match NodeList.lastElem t with
    | some r => some r
    | none => if h.isElem then some h else none

def Node.lastElementChild (n : Node) : Option Node := n.children.lastElem

mutual
/-- `querySelectorAll(sel)` restricted to tag-name selectors: all descendant
elements (document order, self excluded) whose lower-cased tag satisfies
the predicate. -/
def Node.qsa (p : String → Bool) : Node → List Node
  | .text _ _ => []
  | .elem _ _ _ cs => NodeList.qsaL p cs

def NodeList.qsaL (p : String → Bool) : NodeList → List Node
  | .nil => []
  | .cons h t =>
    (if h.isElem && p h.tagLower then [h] else []) ++ Node.qsa p h
      ++ NodeList.qsaL p t
end

/-- `node === other?` against an optional captured reference (`null` when the
reference is absent; JS `x === null` is false for a node). -/
def idEqOpt (n : Node) : Option Node → Bool
  | some m => n.id == m.id
  | none => false

/-!
## `src/util/parsers.js`
-/

/-- Result of `parsePostTag`. -/
structure PostTagResult where
  inList : Option String
  parsedTag : Option (String × String)
deriving DecidableEq, Repr

/-- `parsePostTag` from `src/util/parsers.js`: recognizes
`post-tag:<key>:<value>` in a node's text.  `tags`/`categories` keys open a
list scope; any other key yields a single parsed metadata pair whose value is
`parseText` of the *third* colon segment only. -/
def parsePostTag (node : Node) : PostTagResult :=
  if node.tagLower == "span" then ⟨none, none⟩
  else
    match jsSplit node.textContent ':' with
    | p0 :: p1 :: p2 :: _ =>
      if p0 == "post-tag" then
        if p1 == "tags" || p1 == "categories" then ⟨some p1, none⟩
        else ⟨none, some (p1, parseText p2)⟩
      else ⟨none, none⟩
    | _ => ⟨none, none⟩

/-- A WordPress media-library record, as read from the media search
response (`id`, `source_url`, `alt_text`). -/
structure Media where
  id : Nat
  source_url : String
  alt_text : String
deriving DecidableEq, Repr

/-- The extraction-side service boundary. `mediaSearch name` models
`GET /wp/v2/media?search=name`: `none` is a transport error, `some l` the
response array.  `jsonParse` models `JSON.parse` followed by
`JSON.stringify` (the minified re-serialization the code stores): `none` is
a parse failure. -/
structure ExtractEnv where
  mediaSearch : String → Option (List Media)
  jsonParse : String → Option String

/-- `parseContentImageTag` from `src/util/parsers.js`: for a
`content:image:<name>[:<alt>]` heading, resolve the image by name against
the media library and render a `wp:image` block.  Zero matches or a failed
search call throw (the inner `No image found` error is re-thrown by the
surrounding catch with an `Error fetching image` wrapper). -/
def parseContentImageTag (env : ExtractEnv) (node : Node) (filePath : String) :
    Except String String :=
  if node.isElem then
    match jsSplit node.textContent ':' with
    | p0 :: _ :: p2 :: rest =>
      if jsToLower p0 == "content" then
        let imageName := jsTrim p2
        let imageAltText := match rest with
          | p3 :: _ => if p3 == "" then "" else jsTrim p3
          | [] => ""
        match env.mediaSearch imageName with
        | some (image :: _) =>
          .ok ("<!-- wp:image \x7b\"id\":" ++ toString image.id ++ "\x7d -->"
            ++ "<figure class=\"wp-block-image size-large\"><img src=\"" ++ image.source_url
            ++ "\" alt=\"" ++ (if imageAltText != "" then imageAltText
                else if image.alt_text != "" then image.alt_text else "image")
            ++ "\" class=\"wp-image-" ++ toString image.id ++ "\"/></figure>"
            ++ "<!-- /wp:image -->")
        | some [] =>
          .error ("Error fetching image from WordPress: No image found for name: "
            ++ imageName ++ " in " ++ filePath ++ " in " ++ filePath)
        | none =>
          .error ("Error fetching image from WordPress: Request failed in " ++ filePath)
      else .ok ""
    | _ => .ok ""
  else .ok ""

/-- Recursion state of `parseListBlock` (the `list` argument):
accumulated items, the closed flag, and the captured reference to the
enclosing `ul`'s last element child. -/
structure ListState where
  items : List String
  listParsed : Bool
  lastNode : Option Node

/-- `parseListBlock` from `src/util/parsers.js`.  Besides the updated state
it returns the identities the call marks `_processed` (the direct children
of the item that closes the list). -/
def parseListBlock (node : Node) (list : ListState) (_listType : String) :
    ListState × List Nat :=
  let items := list.items
  let listParsed := list.listParsed
  let lastNode := list.lastNode
  if node.tagLower == "ul" then
    (⟨items, listParsed, node.lastElementChild⟩, [])
  else if node.tagLower == "li" then
    let items := items ++ [parseText (jsTrim node.textContent)]
    if idEqOpt node lastNode
        || (match lastNode with
            | some ln => node.containsNode ln
            | none => false) then
      (⟨items, true, lastNode⟩, node.childIds)
    else
      (⟨items, listParsed, lastNode⟩, [])
  else
    (⟨items, listParsed, lastNode⟩, [])

/-- Recursion state of `parseTableBlock` (the `report` argument).
`heading1`/`heading2` are `Option` because the `objectsReports` initial
state in `extract-input.js` sets them to `undefined` (spread over the
function's `''` defaults) so that the first two data cells are captured as
headings. -/
structure Report where
  title : String
  column1 : List String
  column1Hover : List String
  column2 : List String
  column2Hover : List String
  heading1 : Option String
  heading2 : Option String
  lastNode : Option Node
  currentLeftRow : Bool
  blockParsed : Bool
  numOfCols : Nat

mutual
/-- `processTableCellContent` from `src/util/parsers.js`: renders a cell to
minimal HTML (text is whitespace-normalized; `ul`/`ol`/`li`/`a`/`strong`/`b`
re-wrap; `span` and anything else are transparent). -/
def processTableCellContent (cellNode : Node) : String :=
  ptccChildren cellNode.children

def ptccChildren : NodeList → String
  | .nil => ""
  | .cons c t =>
    (match c with
     | .text _ s => parseText s
     | .elem _ tg hr kids =>
       let tn := jsToLower tg
       if tn == "ul" || tn == "ol" then
         "<" ++ tn ++ ">" ++ ptccChildren kids ++ "</" ++ tn ++ ">"
       else if tn == "li" then
         "<li>" ++ ptccChildren kids ++ "</li>"
       else if tn == "a" then
         "<a href=\"" ++ (match hr with | some h => h | none => "null")
           ++ "\">" ++ ptccChildren kids ++ "</a>"
       else if tn == "strong" || tn == "b" then
         "<" ++ tn ++ ">" ++ ptccChildren kids ++ "</" ++ tn ++ ">"
       else
         ptccChildren kids)
    ++ ptccChildren t
end

/-- The overflow rule of `parseTableBlock`: a non-empty rendered cell is
diverted to the current column's hover sequence when the column already
holds more than 12 items (report tables only); otherwise it lands in the
main column.  Toggles the column afterwards when the row has several
columns. -/
def pushCell (type : String) (pr : Report) (parsedContent : String) : Report :=
  let colLen := (if pr.currentLeftRow then pr.column1 else pr.column2).length
  let pr :=
    if type == "objectsReports" && colLen > 12 && (jsTrim parsedContent).length > 0 then
      if pr.currentLeftRow then {pr with column1Hover := pr.column1Hover ++ [parsedContent]}
      else {pr with column2Hover := pr.column2Hover ++ [parsedContent]}
    else
      if pr.currentLeftRow then {pr with column1 := pr.column1 ++ [parsedContent]}
      else {pr with column2 := pr.column2 ++ [parsedContent]}
  if pr.numOfCols > 1 then {pr with currentLeftRow := !pr.currentLeftRow} else pr

/-- `parseTableBlock` from `src/util/parsers.js`.  Returns the updated
report and the identities marked `_processed` (the `td` cells of the
terminal row).  The defaults-then-spread initialization of the source is
the identity here because `extract-input.js` always passes the full state. -/
def parseTableBlock (node : Node) (report : Report) (type : String) :
    Report × List Nat :=
  let pr := report
  let pr :=
    if node.isElem && node.tagLower == "h2" then
      {pr with title := parseText (jsTrim node.textContent)}
    else pr
  if node.tagLower == "tbody" then
    ({pr with lastNode := node.lastElementChild}, [])
  else if node.tagLower == "tr" && pr.numOfCols == 0 then
    ({pr with numOfCols := (node.qsa (fun t => t == "td" || t == "th")).length}, [])
  else if node.tagLower == "td" && (pr.heading1 == none || pr.heading2 == none)
      && type == "objectsReports" then
    let cellText := jsTrim node.textContent
    if pr.heading1 == none then
      ({pr with heading1 := some (if cellText == "" then cellText else parseText cellText)}, [])
    else
      ({pr with heading2 := some (if cellText == "" then cellText else parseText cellText)}, [])
  else if node.tagLower == "td" && (type == "objectsReports" || type == "faq") then
    (pushCell type pr (processTableCellContent node), [])
  else if idEqOpt node pr.lastNode then
    if node.tagLower == "tr" then
      let cells := node.qsa (fun t => t == "td")
      let pr := {pr with currentLeftRow := true}
      let pr := cells.foldl (fun pr cell => pushCell type pr (processTableCellContent cell)) pr
      ({pr with blockParsed := true}, cells.map Node.id)
    else
      ({pr with blockParsed := true}, [])
  else
    (pr, [])

/-!
## `src/workers/extract-input.js`
-/

/-- `returnPostValues`: the extraction output being built.  `url` is a
dynamically-added `post-tag` field in the source (absent = `undefined`,
which is falsy exactly like the empty string every consumer checks it
against), and `extra` holds spreads of any other dynamic string key. -/
structure RV where
  title : String
  author : String
  description : String
  schema : String
  url : String
  extra : List (String × String)
  tldr : ListState
  tags : ListState
  categories : ListState
  objectsReports : Report
  faq : Report
  postContent : String

/-- The initial `returnPostValues` of `extractData`. -/
def initRV : RV where
  title := ""
  author := ""
  description := ""
  schema := ""
  url := ""
  extra := []
  tldr := ⟨[], false, none⟩
  tags := ⟨[], false, none⟩
  categories := ⟨[], false, none⟩
  objectsReports :=
    { title := "", heading1 := none, column1 := [], column1Hover := []
      heading2 := none, column2 := [], column2Hover := []
      lastNode := none, currentLeftRow := true, blockParsed := false, numOfCols := 0 }
  faq :=
    { title := "", heading1 := some "", column1 := [], column1Hover := []
      heading2 := some "", column2 := [], column2Hover := []
      lastNode := none, currentLeftRow := true, blockParsed := false, numOfCols := 0 }
  postContent := ""

/-- `returnPostValues[inList]` for the three list names the source ever
stores in `inList`. -/
def RV.getList (rv : RV) (name : String) : ListState :=
  if name == "tldr" then rv.tldr
  else if name == "tags" then rv.tags
  else if name == "categories" then rv.categories
  else ⟨[], false, none⟩

def RV.setList (rv : RV) (name : String) (ls : ListState) : RV :=
  if name == "tldr" then {rv with tldr := ls}
  else if name == "tags" then {rv with tags := ls}
  else if name == "categories" then {rv with categories := ls}
  else rv

/-- `returnPostValues[inTable]` for the two table names. -/
def RV.getTable (rv : RV) (name : String) : Report :=
  if name == "objectsReports" then rv.objectsReports else rv.faq

def RV.setTable (rv : RV) (name : String) (r : Report) : RV :=
  if name == "objectsReports" then {rv with objectsReports := r}
  else if name == "faq" then {rv with faq := r}
  else rv

/-- `returnPostValues = {...returnPostValues, ...postTag}` for the
string-valued metadata keys a `post-tag` can set. -/
def RV.setField (rv : RV) (kv : String × String) : RV :=
  if kv.1 == "title" then {rv with title := kv.2}
  else if kv.1 == "author" then {rv with author := kv.2}
  else if kv.1 == "description" then {rv with description := kv.2}
  else if kv.1 == "schema" then {rv with schema := kv.2}
  else if kv.1 == "url" then {rv with url := kv.2}
  else {rv with extra := kv :: rv.extra}

/-- Traversal state: the post being built, the open-scope registers
`inList`/`inTable`, and the set of `_processed` node identities. -/
structure St where
  rv : RV
  inList : Option String
  inTable : Option String
  processed : List Nat

/-- `Array.prototype.join(sep)`. -/
def joinSep (sep : String) : List String → String
  | [] => ""
  | [x] => x
  | x :: xs => x ++ sep ++ joinSep sep xs

/-- One entry of the tldr ACF repeater: quotes are stripped from the item
text (`replace(/"/g, '')` then `replace(/'/g, '')`) before embedding. -/
def tldrItemEntry (index : Nat) (item : String) : String :=
  let parsedText := removeCharAll squote (removeCharAll '"' item)
  "\"content_list_" ++ toString index ++ "_list_item\":\"" ++ parsedText
    ++ "\",\"_content_list_" ++ toString index
    ++ "_list_item\":\"field_6706bfb470c46\""

/-- The `tldrBlock` template literal flushed into `postContent` when a tldr
list closes (whitespace reproduced from the source). -/
def tldrBlockString (items : List String) : String :=
  "\n                    <!-- wp:acf/hub-and-spoke-tldr \x7b\"name\":\"acf/hub-and-spoke-tldr\",\"data\":\x7b\"list_item_prefix\":\"Step\",\"_list_item_prefix\":\"field_6706bff770c47\","
    ++ joinSep "," (items.mapIdx tldrItemEntry)
    ++ ",\"content_list\":" ++ toString items.length
    ++ ",\"_content_list\":\"field_6706bf56b9cb3\"\x7d,\"mode\":\"auto\"\x7d /-->\n                  "

/-- `JSON.stringify(acfData)` for the objects-reports flush: key order is
insertion order; an `undefined` heading is omitted entirely; the column
strings join non-empty items with CRLF and the hover strings join with
a comma separator. -/
def acfReportJson (r : Report) : String :=
  let column1String := joinSep "\r\n" (r.column1.filter (· != ""))
  let column2String := joinSep "\r\n" (r.column2.filter (· != ""))
  "\x7b\"name\":\"acf/playbook-objects-reports\",\"data\":\x7b\"field_67ca12053d9f5\":"
    ++ jsonQuote r.title
    ++ (match r.heading1 with
        | some h => ",\"field_67d1e5999642e\":" ++ jsonQuote h
        | none => "")
    ++ ",\"field_67ca12053e1e8\":" ++ jsonQuote column1String
    ++ (match r.heading2 with
        | some h => ",\"field_67d1e5b896430\":" ++ jsonQuote h
        | none => "")
    ++ ",\"field_67ca12053ed84\":" ++ jsonQuote column2String
    ++ ",\"field_67ca12053e5e3\":" ++ jsonQuote (joinSep ", " r.column1Hover)
    ++ ",\"field_67ca12053f169\":" ++ jsonQuote (joinSep ", " r.column2Hover)
    ++ "\x7d,\"mode\":\"auto\"\x7d"

/-- Flush of a closed list scope into `postContent` (`switch (inList)`):
only `tldr` emits a block, and only when it collected items. -/
def flushList (listName : String) (s : St) : St :=
  if listName == "tldr" && s.rv.tldr.items.length > 0 then
    {s with rv := {s.rv with
      postContent := s.rv.postContent ++ tldrBlockString s.rv.tldr.items}}
  else s

/-- Flush of a closed table scope into `postContent` (`switch (inTable)`):
only `objectsReports` emits a block; `faq` is kept for the publish step. -/
def flushTable (tableName : String) (s : St) : St :=
  if tableName == "objectsReports" then
    {s with rv := {s.rv with
      postContent := s.rv.postContent
        ++ "\n<!-- wp:acf/playbook-objects-reports " ++ acfReportJson s.rv.objectsReports
        ++ " /-->\n"}}
  else s

/-- The regex `/post-tag:schema:({[\s\S]*})$/`: leftmost occurrence of
`post-tag:schema:` followed immediately by a brace, greedy capture to the
end of the text, which must close with a brace. -/
def schemaMatch (t : String) : Option String :=
  match suffixFromCL t.data ("post-tag:schema:\x7b".data) with
  | none => none
  | some suffix =>
    let cap := suffix.drop 16
    if cap.getLast? == some (Char.ofNat 125) then some ⟨cap⟩ else none

/-- The regex `/block:youtube-embed:(https?:\/\/[^\s]+)/` tried at one
position. -/
def ytTryAt (l : List Char) : Option String :=
  if ("block:youtube-embed:".data).isPrefixOf l then
    let rest := l.drop 20
    if ("https://".data).isPrefixOf rest then
      let run := (rest.drop 8).takeWhile (fun c => !isJsWS c)
      if run.isEmpty then none else some ⟨"https://".data ++ run⟩
    else if ("http://".data).isPrefixOf rest then
      let run := (rest.drop 7).takeWhile (fun c => !isJsWS c)
      if run.isEmpty then none else some ⟨"http://".data ++ run⟩
    else none
  else none

/-- Leftmost match of the youtube-embed regex over the whole text. -/
def ytMatchFrom : List Char → Option String
  | [] => ytTryAt []
  | c :: t =>
    match ytTryAt (c :: t) with
    | some u => some u
    | none => ytMatchFrom t

/-- The `wp:embed` fragment emitted for a youtube marker. -/
def ytEmbedBlock (youtubeUrl : String) : String :=
  "\n<!-- wp:embed \x7b\"url\":\"" ++ youtubeUrl
    ++ "\",\"type\":\"video\",\"providerNameSlug\":\"youtube\",\"responsive\":true,\"className\":\"wp-embed-aspect-16-9 wp-has-aspect-ratio\"\x7d -->\n<figure class=\"wp-block-embed is-type-video is-provider-youtube wp-block-embed-youtube wp-embed-aspect-16-9 wp-has-aspect-ratio\"><div class=\"wp-block-embed__wrapper\">\n"
    ++ youtubeUrl
    ++ "\n</div></figure>\n<!-- /wp:embed -->\n"

/-- Append to `returnPostValues.postContent`. -/
def appendPC (s : St) (t : String) : St :=
  {s with rv := {s.rv with postContent := s.rv.postContent ++ t}}

/-- The element kinds the generic content transcoder handles. -/
def genericTags : List String :=
  ["p", "a", "h2", "h3", "h4", "ul", "ol", "li", "table", "tbody", "thead",
   "tfoot", "tr", "th", "td"]

/-- The inline-eligible child kinds `processChildNodes` dispatches with
`_childNode = true`. -/
def inlineTags : List String := ["p", "a", "span", "strong"]
/-- The result layer of the fuel-indexed traversal: `none` is fuel
exhaustion (never reached from `extractRun`, whose fuel exceeds the tree
depth that bounds the recursion), `some (.error e)` a thrown JS exception,
`some (.ok a)` a normal return. -/
abbrev Res (α : Type) : Type := Option (Except String α)

def Res.pureR {α : Type} (a : α) : Res α := some (.ok a)

def Res.bindR {α β : Type} : Res α → (α → Res β) → Res β
  | none, _ => none
  | some (.error e), _ => some (.error e)
  | some (.ok a), k => k a

instance monadRes : Monad Res where
  pure := Res.pureR
  bind := Res.bindR

def Res.throwR {α : Type} (e : String) : Res α := some (.error e)

def NodeList.toList : NodeList → List Node
  | .nil => []
  | .cons h t => h :: NodeList.toList t

/-- The trailing `for (const childNode of node.childNodes)` loop at the end
of `processNode`, over a given recursive visitor. -/
def trailWith (visit : Node → Bool → St → Res (St × Option String))
    (cs : List Node) (s : St) : Res St :=
  cs.foldl (fun acc h => acc.bindR (fun s =>
    (visit h false s).bindR (fun r => Res.pureR r.1))) (Res.pureR s)

/-- `processChildNodes` from `src/workers/extract-input.js`, over a given
recursive visitor: inline-eligible element children are visited with
`_childNode = true` and their returned `parsedText` accumulated (a returned
`undefined` — an already-processed child — makes the source's destructuring
throw); other element children are visited as blocks; text children are
normalized into the accumulator and marked.  (The source's no-children
fallback returns `parseText(node.textContent)`, which for a childless
element equals the empty accumulator of the empty loop.) -/
def pcnWith (visit : Node → Bool → St → Res (St × Option String))
    (cs : List Node) (s : St) : Res (St × String) :=
  cs.foldl (fun acc h => acc.bindR (fun sa =>
    if h.isElem && inlineTags.contains h.tagLower then
      (visit h true sa.1).bindR (fun r =>
        match r.2 with
        | some childHtml => Res.pureR (r.1, sa.2 ++ childHtml)
        | none => Res.throwR "TypeError: cannot destructure parsedText of undefined")
    else if h.isElem then
      (visit h false sa.1).bindR (fun r => Res.pureR (r.1, sa.2))
    else
      Res.pureR ({sa.1 with processed := h.id :: sa.1.processed},
        sa.2 ++ parseText h.textContent)))
    (Res.pureR (s, ""))

/-- One step of `processNode` from `extractData` in
`src/workers/extract-input.js`, with the recursive occurrences abstracted
as `ih`.  `asChild` is the node's `_childNode` flag (set by
`processChildNodes` just before the call).  The returned value is what the
JS call returns: `none` models `undefined`, `some t` models
`return { parsedText: t }`. -/
def processNodeBody (env : ExtractEnv) (fileName : String)
    (ih : Node → Bool → St → Res (St × Option String))
    (node : Node) (asChild : Bool) (s : St) : Res (St × Option String) :=
  if s.processed.contains node.id then Res.pureR (s, none)
  else
    let s : St := {s with processed := node.id :: s.processed}
    match node with
    | .text _ _ => Res.pureR (s, none)
    | .elem _ tg hrf kids =>
      let tn := jsToLower tg
      let txt := NodeList.textConcat kids
      let ks := kids.toList
      if tn != "body" && !asChild then
        (do
          let s ←
            match s.inList with
            | some listName =>
              let pr := parseListBlock node (s.rv.getList listName) listName
              let s := {s with rv := s.rv.setList listName pr.1,
                               processed := pr.2 ++ s.processed}
              Res.pureR (if pr.1.listParsed then
                      {flushList listName s with inList := none}
                    else s)
            | none =>
            match s.inTable with
            | some tableName =>
              let pr := parseTableBlock node (s.rv.getTable tableName) tableName
              let s := {s with rv := s.rv.setTable tableName pr.1,
                               processed := pr.2 ++ s.processed}
              Res.pureR (if pr.1.blockParsed then
                      {flushTable tableName s with inTable := none}
                    else s)
            | none =>
            if tn == "h1" then
              let rvT := {s.rv with title := parseText txt}
              let marks := NodeList.childIds kids ++ s.processed
              Res.pureR ({s with rv := rvT, processed := marks})
            else if jsIncludes txt "post-tag:" then
              if tn == "h2" || tn == "h3" || tn == "h4" then
                let parsed := parsePostTag node
                let s := match parsed.inList with
                  | some l => {s with inList := some l}
                  | none => s
                if jsIncludes txt "post-tag:schema:" then
                  match schemaMatch txt with
                  | some rawCapture =>
                    let schemaJson := jsTrim rawCapture
                    match env.jsonParse schemaJson with
                    | some minified => Res.pureR ({s with rv := {s.rv with schema := minified}})
                    | none => Res.pureR ({s with rv := {s.rv with schema := ""}})
                  | none => Res.pureR s
                else
                  match parsed.parsedTag with
                  | some kv => Res.pureR ({s with rv := s.rv.setField kv})
                  | none => Res.pureR s
              else Res.pureR s
            else if jsIncludes (jsToLower txt) "content:image" then
              if tn == "h2" || tn == "h3" || tn == "h4" then
                match parseContentImageTag env node fileName with
                | .ok parsedImage => Res.pureR (appendPC s parsedImage)
                | .error e => Res.throwR e
              else Res.pureR s
            else if jsIncludes txt "block:tldr" then
              Res.pureR (if tn == "h2" || tn == "h3" || tn == "h4" then
                      {s with inList := some "tldr"}
                    else s)
            else if jsIncludes txt "block:objects-reports" then
              Res.pureR (if tn == "h2" || tn == "h3" || tn == "h4" then
                      {s with inTable := some "objectsReports"}
                    else s)
            else if jsIncludes txt "block:faq" then
              Res.pureR (if tn == "h2" || tn == "h3" || tn == "h4" then
                      {s with inTable := some "faq"}
                    else s)
            else if jsIncludes txt "block:youtube-embed:" then
              if tn == "h2" || tn == "h3" || tn == "h4" then
                match ytMatchFrom txt.data with
                | some u => Res.pureR (appendPC s (ytEmbedBlock (jsTrim u)))
                | none => Res.pureR s
              else Res.pureR s
            else if genericTags.contains tn then
              if tn == "h2" then do
                let s := appendPC s "<!-- wp:heading \x7b\"level\":2\x7d -->\n<h2>"
                let r ← pcnWith ih ks s
                Res.pureR (appendPC (appendPC r.1 r.2) "</h2>\n<!-- /wp:heading -->\n")
              else if tn == "h3" then do
                let s := appendPC s "<!-- wp:heading \x7b\"level\":3\x7d -->\n<h3>"
                let r ← pcnWith ih ks s
                Res.pureR (appendPC (appendPC r.1 r.2) "</h3>\n<!-- /wp:heading -->\n")
              else if tn == "h4" then do
                let s := appendPC s "<!-- wp:heading \x7b\"level\":4\x7d -->\n<h4>"
                let r ← pcnWith ih ks s
                Res.pureR (appendPC (appendPC r.1 r.2) "</h4>\n<!-- /wp:heading -->\n")
              else if tn == "p" then do
                let s := appendPC s "<!-- wp:paragraph -->\n<p>"
                let r ← pcnWith ih ks s
                Res.pureR (appendPC (appendPC r.1 r.2) "</p>\n<!-- /wp:paragraph -->\n")
              else if tn == "a" then
                let hrefS := match hrf with | some h => h | none => "null"
                let text := parseText (jsTrim txt)
                Res.pureR (appendPC s ("<!-- wp:paragraph -->\n<p><a href=\"" ++ hrefS
                  ++ "\">" ++ text ++ "</a></p>\n<!-- /wp:paragraph -->\n"))
              else if tn == "ul" then do
                let s := appendPC s "<!-- wp:list \x7b\"className\":\"wp-block-list\"\x7d -->\n<ul class=\"wp-block-list\">\n"
                let r ← pcnWith ih ks s
                Res.pureR (appendPC (appendPC r.1 r.2) "</ul>\n<!-- /wp:list -->\n")
              else if tn == "ol" then do
                let s := appendPC s "<!-- wp:list \x7b\"ordered\":true\x7d -->\n<ol class=\"wp-block-list\">\n"
                let r ← pcnWith ih ks s
                Res.pureR (appendPC (appendPC r.1 r.2) "</ol>\n<!-- /wp:list -->\n")
              else if tn == "li" then do
                let s := appendPC s "<!-- wp:list-item -->\n<li>"
                let r ← pcnWith ih ks s
                Res.pureR (appendPC (appendPC r.1 r.2) "</li><!-- /wp:list-item -->\n")
              else if tn == "table" then do
                let s := appendPC s "<!-- wp:table -->\n<figure class=\"wp-block-table\"><table>\n"
                let r ← pcnWith ih ks s
                Res.pureR (appendPC (appendPC r.1 r.2) "</table></figure>\n<!-- /wp:table -->\n")
              else if tn == "tbody" || tn == "thead" || tn == "tfoot" then do
                let s := appendPC s ("<" ++ tn ++ ">\n")
                let r ← pcnWith ih ks s
                Res.pureR (appendPC (appendPC r.1 r.2) ("</" ++ tn ++ ">\n"))
              else if tn == "tr" then do
                let s := appendPC s "<tr>\n"
                let r ← pcnWith ih ks s
                Res.pureR (appendPC (appendPC r.1 r.2) "</tr>\n")
              else if tn == "td" || tn == "th" then do
                let s := appendPC s "<td>\n"
                let r ← pcnWith ih ks s
                Res.pureR (appendPC (appendPC r.1 r.2) "</td>\n")
              else Res.pureR s
            else Res.pureR s
          let s ← trailWith ih ks s
          Res.pureR (s, none)
          : Res (St × Option String))
      else if asChild && inlineTags.contains tn then
        if tn == "p" then
          (pcnWith ih ks s).bindR (fun r =>
            Res.pureR (r.1, some ("<p>" ++ r.2 ++ "</p>")))
        else if tn == "span" then
          (pcnWith ih ks s).bindR (fun r =>
            let _ := appendPC r.1 r.2
            Res.throwR "ReferenceError: parsedText is not defined")
        else if tn == "strong" then
          (pcnWith ih ks s).bindR (fun r =>
            Res.pureR (r.1, some (" <strong>" ++ r.2 ++ "</strong> ")))
        else
          let hrefS := match hrf with | some h => h | none => "null"
          (pcnWith ih ks s).bindR (fun r =>
            Res.pureR (r.1, some (" <a href=\"" ++ hrefS ++ "\">" ++ r.2 ++ "</a> ")))
      else
        (trailWith ih ks s).bindR (fun s => Res.pureR (s, none))

/-- The fuel-indexed `processNode`: fuel decreases only when descending to
children, so tree depth bounds it. -/
def processNodeF (env : ExtractEnv) (fileName : String) :
    Nat → Node → Bool → St → Res (St × Option String) :=
  Nat.rec (motive := fun _ => Node → Bool → St → Res (St × Option String))
    (fun _ _ _ => none)
    (fun _ ih => processNodeBody env fileName ih)

theorem processNodeF_zero (env : ExtractEnv) (fileName : String) (node : Node)
    (asChild : Bool) (s : St) :
    processNodeF env fileName 0 node asChild s = none := rfl

theorem processNodeF_succ (env : ExtractEnv) (fileName : String) (fuel : Nat) :
    processNodeF env fileName (fuel + 1)
      = processNodeBody env fileName (processNodeF env fileName fuel) := rfl

mutual
/-- Depth of the tree, which bounds the traversal recursion. -/
def Node.depth : Node → Nat
  | .text _ _ => 1
  | .elem _ _ _ cs => 1 + NodeList.depthL cs

def NodeList.depthL : NodeList → Nat
  | .nil => 0
  | .cons h t => max h.depth (NodeList.depthL t)
end

/-- `extractData` from `src/workers/extract-input.js`, starting from the
parsed document's `body` element (file reading and JSDOM construction are
outside the model).  The fuel strictly exceeds the tree depth, so it is
never exhausted on the document itself. -/
def extractRun (env : ExtractEnv) (fileName : String) (body : Node) : Res RV :=
  (processNodeF env fileName (body.depth + 1) body false
      ⟨initRV, none, none, []⟩).bindR
    (fun r => Res.pureR r.1.rv)
/-!
## Observable projections

`ListState`/`Report` carry captured `Node` references, so the extraction
result is compared through a plain-data projection with decidable
equality.
-/

structure ReportObs where
  title : String
  column1 : List String
  column1Hover : List String
  column2 : List String
  column2Hover : List String
  heading1 : Option String
  heading2 : Option String
  blockParsed : Bool
  numOfCols : Nat
deriving DecidableEq, Repr

def Report.obs (r : Report) : ReportObs :=
  ⟨r.title, r.column1, r.column1Hover, r.column2, r.column2Hover,
   r.heading1, r.heading2, r.blockParsed, r.numOfCols⟩

structure Obs where
  title : String
  author : String
  description : String
  schema : String
  url : String
  extra : List (String × String)
  tldrItems : List String
  tagsItems : List String
  categoriesItems : List String
  objectsReports : ReportObs
  faq : ReportObs
  postContent : String
deriving DecidableEq, Repr

def RV.obs (rv : RV) : Obs :=
  ⟨rv.title, rv.author, rv.description, rv.schema, rv.url, rv.extra,
   rv.tldr.items, rv.tags.items, rv.categories.items,
   rv.objectsReports.obs, rv.faq.obs, rv.postContent⟩

/-- The successfully extracted result, if any (`none` models the extraction
worker failing for this document). -/
def extractOk (env : ExtractEnv) (fileName : String) (body : Node) : Option RV :=
  match extractRun env fileName body with
  | some (.ok rv) => some rv
  | _ => none

/-- Extraction observed through the plain-data projection. -/
def extractObs (env : ExtractEnv) (fileName : String) (body : Node) : Option Obs :=
  (extractOk env fileName body).map RV.obs

def isErrorE {α : Type} (e : Except String α) : Bool :=
  match e with
  | .error _ => true
  | .ok _ => false

/-!
## `src/workers/publish-draft.js`
-/

/-- The existence query of `publishPost`: the source interpolates either a
`slug=` or a `search=` (title) parameter (with `&status=any` appended). -/
inductive PostQuery where
  | bySlug (slug : String)
  | byTitle (title : String)
deriving DecidableEq, Repr

/-- A record of the target system, as read back by the existence lookup. -/
structure ExistingPost where
  id : Nat
  status : String
deriving DecidableEq, Repr

/-- The publish-side service boundary.  Each search function models one
REST GET: `none` is a transport error and `some l` the response array,
whose entries are numeric ids (`id: 0` reproduces a falsy `data[0].id`).
`createRespId` is the id the server would assign to a created post. -/
structure PubEnv where
  userSearch : String → Option (List Nat)
  tagSearch : String → Option (List Nat)
  categorySearch : String → Option (List Nat)
  postQuery : PostQuery → Option (List ExistingPost)
  createRespId : Nat

structure FaqEntry where
  question_title : String
  question_answer : String
  default_open : Bool
deriving DecidableEq, Repr

structure AcfFields where
  playbook_post_description : String
  custom_schema_json_toggle : Bool
  custom_schema_json : String
  question_section_title : String
  question_list : List FaqEntry
deriving DecidableEq, Repr

structure PostPayload where
  title : String
  status : String
  type : String
  author : Nat
  content : String
  playbook_tag : List Nat
  playbook_category : List Nat
  slug : String
  acf : AcfFields
deriving DecidableEq, Repr

/-- The write call `publishPost` issues: `axios.post` (create) or
`axios.put` to an existing id (update). -/
inductive WriteCall where
  | create (payload : PostPayload)
  | update (id : Nat) (payload : PostPayload)
deriving DecidableEq, Repr

structure PubResult where
  postId : Nat
  write : WriteCall
deriving DecidableEq, Repr

/-- The per-term lookup batch (`Promise.all` over `items.map`): any term
whose search misses (or whose id is falsy) rejects the whole batch, which
the surrounding catch rethrows. -/
def lookupTerms (search : String → Option (List Nat)) (label : String)
    (fileName : String) : List String → Except String (List Nat)
  | [] => .ok []
  | tag :: rest =>
    match search tag with
    | none => .error ("Error fetching " ++ label ++ " for " ++ fileName)
    | some ids =>
      match ids.head? with
      | some i =>
        if i != 0 then do
          let restIds ← lookupTerms search label fileName rest
          .ok (i :: restIds)
        else .error (label ++ " \"" ++ tag ++ "\" not found for " ++ fileName)
      | none => .error (label ++ " \"" ++ tag ++ "\" not found for " ++ fileName)

/-- The existence lookup of `publishPost`: the whole check is guarded by
`if (blogData.url)`, so it only runs when a slug is present; the
`search=`-by-title alternative inside the ternary is dead code.  A lookup
transport error is swallowed (warn) and treated as "not found". -/
def existingLookup (env : PubEnv) (blogData : RV) (type : String) :
    Option ExistingPost :=
  if blogData.url != "" then
    let queryParam :=
      if blogData.url != "" then PostQuery.bySlug blogData.url
      else PostQuery.byTitle blogData.title
    match env.postQuery queryParam with
    | some (p :: _) => some p
    | some [] => none
    | none => none
  else none

/-- `publishPost` from `src/workers/publish-draft.js`: resolve the author
(fatal on a miss), the tag and category terms (each resolved as a batch that
rejects on any miss), look up an existing post by slug, then issue one
update (carrying the existing record's status) or one create (status fixed
to `draft`). -/
def publishPost (env : PubEnv) (blogData : RV) (type fileName : String) :
    Except String PubResult := do
  let authorId ←
    match env.userSearch blogData.author with
    | none => .error ("Error fetching author for " ++ fileName)
    | some ids =>
      match ids.head? with
      | some i =>
        if i != 0 then Except.ok i
        else .error ("Author not found for " ++ fileName)
      | none => .error ("Author not found for " ++ fileName)
  let termIds ← lookupTerms env.tagSearch "Term" fileName blogData.tags.items
  let termIds := termIds.filter (· != 0)
  let categoryIds ← lookupTerms env.categorySearch "Taxonomy" fileName blogData.categories.items
  let categoryIds := categoryIds.filter (· != 0)
  let existingPost := existingLookup env blogData type
  let faqData : AcfFields := {
    playbook_post_description := blogData.description
    custom_schema_json_toggle := blogData.schema != ""
    custom_schema_json := blogData.schema
    question_section_title :=
      if blogData.faq.title != "" then blogData.faq.title
      else "Frequently Asked Questions"
    question_list := blogData.faq.column1.mapIdx (fun index question =>
      ⟨question, blogData.faq.column2.getD index "", false⟩) }
  match existingPost with
  | some ex =>
    .ok ⟨ex.id, .update ex.id
      ⟨blogData.title, ex.status, type, authorId, blogData.postContent,
       termIds, categoryIds, blogData.url, faqData⟩⟩
  | none =>
    .ok ⟨env.createRespId, .create
      ⟨blogData.title, "draft", type, authorId, blogData.postContent,
       termIds, categoryIds, blogData.url, faqData⟩⟩

/-!
## The coordinator (`index.js` entry point)

Phase 1 extracts every intake file (bounded-parallel in the source; the
per-file results are independent, and a file whose extraction throws is
dropped from the batch).  Phase 2 publishes the extracted set
sequentially; a publish failure is caught per file and the loop
continues.  File moves live outside the model.
-/

structure BatchFile where
  fileName : String
  body : Node

def extractPhase (env : ExtractEnv) (files : List BatchFile) : List (String × RV) :=
  files.filterMap (fun f =>
    (extractOk env f.fileName f.body).map (fun rv => (f.fileName, rv)))

def publishPhase (penv : PubEnv) (type : String)
    (extracted : List (String × RV)) : List (String × PubResult) :=
  extracted.filterMap (fun fr =>
    (publishPost penv fr.2 type fr.1).toOption.map (fun r => (fr.1, r)))

/-- The whole batch: writes actually issued to the target system, keyed by
source file name. -/
def runBatch (env : ExtractEnv) (penv : PubEnv) (type : String)
    (files : List BatchFile) : List (String × PubResult) :=
  publishPhase penv type (extractPhase env files)

/-!
## Properties of `parseText` (claim C8)
-/

/-- The list does not begin with a JS whitespace character. -/
def headNotWS : List Char → Bool
  | [] => true
  | c :: _ => !isJsWS c

/-- The list does not end with a JS whitespace character. -/
def lastNotWS (l : List Char) : Bool :=
  match l.getLast? with
  | some c => !isJsWS c
  | none => true

/-- No two consecutive JS whitespace characters. -/
def noDoubleWS : List Char → Bool
  | a :: b :: rest => (!(isJsWS a && isJsWS b)) && noDoubleWS (b :: rest)
  | _ => true

/-- Every JS whitespace character in the list is a plain space. -/
def allWSSpace (l : List Char) : Bool := l.all (fun c => !isJsWS c || c == ' ')

theorem headNotWS_dropWhile (l : List Char) :
    headNotWS (l.dropWhile isJsWS) = true := by
  induction l with
  | nil => rfl
  | cons c rest ih =>
    by_cases h : isJsWS c = true
    · simpa [List.dropWhile_cons, h] using ih
    · simp only [List.dropWhile_cons, h]
      simp only [Bool.false_eq_true, if_false, headNotWS]
      simpa using h

theorem headNotWS_of_prefix {p l : List Char} (hp : p <+: l)
    (hl : headNotWS l = true) : headNotWS p = true := by
  cases p with
  | nil => rfl
  | cons c rest =>
    obtain ⟨t, ht⟩ := hp
    cases l with
    | nil => simp at ht
    | cons d r2 =>
      have hcd : c = d := by
        have := congrArg List.head? ht
        simpa using this
      subst hcd
      simpa [headNotWS] using hl

theorem trimCL_headNotWS (l : List Char) : headNotWS (trimCL l) = true := by
  have hsuff : ((dropWSLeft l).reverse.dropWhile isJsWS) <:+ (dropWSLeft l).reverse :=
    List.dropWhile_suffix _
  have hpre : ((dropWSLeft l).reverse.dropWhile isJsWS).reverse
      <+: (dropWSLeft l).reverse.reverse := List.reverse_prefix.2 hsuff
  rw [List.reverse_reverse] at hpre
  exact headNotWS_of_prefix hpre (by simpa [dropWSLeft] using headNotWS_dropWhile l)

theorem trimCL_lastNotWS (l : List Char) : lastNotWS (trimCL l) = true := by
  unfold trimCL lastNotWS
  rw [List.getLast?_reverse]
  have h := headNotWS_dropWhile ((dropWSLeft l).reverse)
  revert h
  cases (dropWSLeft l).reverse.dropWhile isJsWS with
  | nil => intro _; rfl
  | cons c r =>
    intro h
    simpa [headNotWS] using h

theorem headNotWS_collapseWS_true (l : List Char) :
    headNotWS (collapseWS true l) = true := by
  induction l with
  | nil => rfl
  | cons c rest ih =>
    by_cases h : isJsWS c = true
    · simpa [collapseWS, h] using ih
    · simp [collapseWS, h, headNotWS]

theorem noDoubleWS_cons (a : Char) (l : List Char) :
    noDoubleWS (a :: l) = ((!(isJsWS a) || headNotWS l) && noDoubleWS l) := by
  cases l with
  | nil => simp [noDoubleWS, headNotWS]
  | cons b r => simp [noDoubleWS, headNotWS, Bool.not_and]

theorem noDoubleWS_collapseWS (l : List Char) :
    ∀ b, noDoubleWS (collapseWS b l) = true := by
  induction l with
  | nil => intro b; rfl
  | cons c rest ih =>
    intro b
    by_cases h : isJsWS c = true
    · cases b with
      | true => simpa [collapseWS, h] using ih true
      | false =>
        simp only [collapseWS, h, if_true, Bool.false_eq_true, if_false]
        rw [noDoubleWS_cons]
        simp [headNotWS_collapseWS_true, ih true]
    · simp only [collapseWS, h]
      simp only [Bool.false_eq_true, if_false]
      rw [noDoubleWS_cons]
      simp [h, ih false]

theorem allWSSpace_collapseWS (l : List Char) :
    ∀ b, allWSSpace (collapseWS b l) = true := by
  induction l with
  | nil => intro b; rfl
  | cons c rest ih =>
    intro b
    by_cases h : isJsWS c = true
    · cases b with
      | true => simpa [collapseWS, h] using ih true
      | false =>
        simp only [collapseWS, h, if_true, Bool.false_eq_true, if_false]
        have hsp : (!isJsWS ' ' || (' ' == ' ')) = true := by decide
        have := ih true
        simp only [allWSSpace, List.all_cons] at this ⊢
        simp [hsp, this]
    · simp only [collapseWS, h, Bool.false_eq_true, if_false]
      have hthis := ih false
      simp only [allWSSpace, List.all_cons, Bool.and_eq_true]
      constructor
      · simp [h]
      · simpa [allWSSpace] using hthis

theorem lastNotWS_cons_cons (c d : Char) (r : List Char) :
    lastNotWS (c :: d :: r) = lastNotWS (d :: r) := by
  unfold lastNotWS
  rw [List.getLast?_cons_cons]

theorem collapseWS_lastNotWS (l : List Char) :
    ∀ b, lastNotWS l = true → l ≠ [] →
      (collapseWS b l ≠ [] ∧ lastNotWS (collapseWS b l) = true) := by
  induction l with
  | nil => intro b _ h; exact absurd rfl h
  | cons c rest ih =>
    intro b hlast _
    cases rest with
    | nil =>
      have hc : isJsWS c = false := by simpa [lastNotWS] using hlast
      simp [collapseWS, hc, lastNotWS]
    | cons d r2 =>
      have hrest : lastNotWS (d :: r2) = true := by
        rw [lastNotWS_cons_cons] at hlast; exact hlast
      by_cases hc : isJsWS c = true
      · cases b with
        | true =>
          have hcol : collapseWS true (c :: d :: r2) = collapseWS true (d :: r2) := by
            simp [collapseWS, hc]
          rw [hcol]
          exact ih true hrest (by simp)
        | false =>
          have hcol : collapseWS false (c :: d :: r2)
              = ' ' :: collapseWS true (d :: r2) := by
            simp [collapseWS, hc]
          rw [hcol]
          obtain ⟨hne, hlw⟩ := ih true hrest (by simp)
          refine ⟨by simp, ?_⟩
          cases hx : collapseWS true (d :: r2) with
          | nil => exact absurd hx hne
          | cons e r3 =>
            rw [hx] at hlw
            rw [lastNotWS_cons_cons]
            exact hlw
      · have hcolb : collapseWS b (c :: d :: r2)
            = c :: collapseWS false (d :: r2) := by
          simp [collapseWS, hc]
        rw [hcolb]
        obtain ⟨hne, hlw⟩ := ih false hrest (by simp)
        refine ⟨by simp, ?_⟩
        cases hx : collapseWS false (d :: r2) with
        | nil => exact absurd hx hne
        | cons e r3 =>
          rw [hx] at hlw
          rw [lastNotWS_cons_cons]
          exact hlw

theorem noDoubleWS_tail {c : Char} {l : List Char}
    (h : noDoubleWS (c :: l) = true) : noDoubleWS l = true := by
  rw [noDoubleWS_cons, Bool.and_eq_true] at h
  exact h.2

theorem lastNotWS_tail {c : Char} {l : List Char}
    (h : lastNotWS (c :: l) = true) (hne : l ≠ []) : lastNotWS l = true := by
  cases l with
  | nil => exact absurd rfl hne
  | cons d r => rw [lastNotWS_cons_cons] at h; exact h

theorem collapseWS_fix (l : List Char) :
    noDoubleWS l = true → allWSSpace l = true → lastNotWS l = true →
      collapseWS false l = l := by
  induction l with
  | nil => intro _ _ _; rfl
  | cons c rest ih =>
    intro hnd haw hln
    by_cases hc : isJsWS c = true
    · cases rest with
      | nil => simp [lastNotWS, hc] at hln
      | cons d r2 =>
        have hceq : c = ' ' := by
          have := haw
          simp only [allWSSpace, List.all_cons, Bool.and_eq_true] at this
          rcases this with ⟨h1, _⟩
          simp only [hc, Bool.not_true, Bool.false_or] at h1
          exact eq_of_beq h1
        have hd : isJsWS d = false := by
          rw [noDoubleWS_cons] at hnd
          rw [Bool.and_eq_true] at hnd
          rcases hnd with ⟨h1, _⟩
          simp only [hc, Bool.not_true, Bool.false_or, headNotWS] at h1
          simpa using h1
        have hrest : collapseWS false (d :: r2) = d :: r2 := by
          refine ih (noDoubleWS_tail hnd) ?_ (lastNotWS_tail hln (by simp))
          simp only [allWSSpace, List.all_cons, Bool.and_eq_true] at haw ⊢
          exact haw.2
        have hr2 : collapseWS false r2 = r2 := by
          have hrw : collapseWS false (d :: r2) = d :: collapseWS false r2 := by
            simp [collapseWS, hd]
          rw [hrw] at hrest
          exact (List.cons_eq_cons.1 hrest).2
        have hstep : collapseWS false (c :: d :: r2)
            = ' ' :: collapseWS true (d :: r2) := by
          simp [collapseWS, hc]
        have hstep2 : collapseWS true (d :: r2) = d :: collapseWS false r2 := by
          simp [collapseWS, hd]
        rw [hstep, hstep2, hr2, hceq]
    · have hstep : collapseWS false (c :: rest) = c :: collapseWS false rest := by
        simp [collapseWS, hc]
      rw [hstep]
      cases rest with
      | nil => rfl
      | cons d r2 =>
        have := ih (noDoubleWS_tail hnd)
          (by simp only [allWSSpace, List.all_cons, Bool.and_eq_true] at haw ⊢; exact haw.2)
          (lastNotWS_tail hln (by simp))
        rw [this]

theorem headNotWS_eq_head (l : List Char) :
    headNotWS l = (match l.head? with
      | some c => !isJsWS c
      | none => true) := by
  cases l <;> rfl

theorem dropWhile_of_headNotWS {l : List Char} (h : headNotWS l = true) :
    l.dropWhile isJsWS = l := by
  cases l with
  | nil => rfl
  | cons c r =>
    have hc : isJsWS c = false := by simpa [headNotWS] using h
    simp [List.dropWhile_cons, hc]

theorem trimCL_fix (l : List Char) (hh : headNotWS l = true)
    (hl : lastNotWS l = true) : trimCL l = l := by
  unfold trimCL dropWSLeft
  rw [dropWhile_of_headNotWS hh]
  have hrev : headNotWS l.reverse = true := by
    rw [headNotWS_eq_head, List.head?_reverse]
    revert hl
    unfold lastNotWS
    cases l.getLast? <;> intro hl <;> simpa using hl
  rw [dropWhile_of_headNotWS hrev, List.reverse_reverse]

theorem headNotWS_collapseWS_false {l : List Char} (h : headNotWS l = true) :
    headNotWS (collapseWS false l) = true := by
  cases l with
  | nil => rfl
  | cons c r =>
    have hc : isJsWS c = false := by simpa [headNotWS] using h
    simp [collapseWS, hc, headNotWS]

theorem stringMkData (s : String) : String.mk s.data = s := rfl

/-- C8: `parseText` is idempotent, and its output never begins or ends with
a whitespace character and never contains two consecutive whitespace
characters. -/
theorem parseText_idempotent_normalized (s : String) :
    parseText (parseText s) = parseText s
    ∧ headNotWS (parseText s).data = true
    ∧ lastNotWS (parseText s).data = true
    ∧ noDoubleWS (parseText s).data = true := by
  have hdata : (parseText s).data = collapseWS false (trimCL s.data) := rfl
  have hh : headNotWS (parseText s).data = true := by
    rw [hdata]
    exact headNotWS_collapseWS_false (trimCL_headNotWS s.data)
  have hl : lastNotWS (parseText s).data = true := by
    rw [hdata]
    cases he : trimCL s.data with
    | nil => rfl
    | cons c r =>
      have := collapseWS_lastNotWS (c :: r) false (by rw [← he]; exact trimCL_lastNotWS s.data) (by simp)
      exact this.2
  have hnd : noDoubleWS (parseText s).data = true := by
    rw [hdata]; exact noDoubleWS_collapseWS _ false
  have haw : allWSSpace (parseText s).data = true := by
    rw [hdata]; exact allWSSpace_collapseWS _ false
  refine ⟨?_, hh, hl, hnd⟩
  have htrim : trimCL (parseText s).data = (parseText s).data := trimCL_fix _ hh hl
  have hcol : collapseWS false (parseText s).data = (parseText s).data :=
    collapseWS_fix _ hnd haw hl
  show String.mk (collapseWS false (trimCL (parseText s).data)) = parseText s
  rw [htrim, hcol, stringMkData]

/-!
## Split behaviour of `parsePostTag` (claim C9)
-/

theorem appendData (a b : String) : (a ++ b).data = a.data ++ b.data := rfl

theorem stringDataEq {a b : String} (h : a.data = b.data) : a = b := by
  cases a; cases b; exact congrArg String.mk h

theorem splitAuxCL_append (sep : Char) (xs ys acc : List Char)
    (hxs : xs.all (· != sep) = true) :
    splitAuxCL sep (xs ++ sep :: ys) acc
      = (acc.reverse ++ xs) :: splitAuxCL sep ys [] := by
  induction xs generalizing acc with
  | nil =>
    simp only [List.nil_append, splitAuxCL]
    simp
  | cons c r ih =>
    simp only [List.all_cons, Bool.and_eq_true] at hxs
    have hc : (c == sep) = false := by
      rcases hxs with ⟨h1, _⟩
      simpa using h1
    simp only [List.cons_append, splitAuxCL, hc, Bool.false_eq_true, if_false,
      List.append_eq]
    rw [ih _ hxs.2]
    simp

theorem jsSplit_colon_append (a b : String)
    (ha : a.data.all (· != ':') = true) :
    jsSplit (a ++ ":" ++ b) ':' = a :: jsSplit b ':' := by
  unfold jsSplit
  have hdata : (a ++ ":" ++ b).data = a.data ++ ':' :: b.data := by
    simp [appendData]
  rw [hdata, splitAuxCL_append _ _ _ _ ha]
  simp [stringMkData]

theorem stringAppendAssoc (a b c : String) : a ++ b ++ c = a ++ (b ++ c) := by
  apply stringDataEq
  simp [appendData]

theorem stringAppendEmpty (s : String) : s ++ "" = s := by
  apply stringDataEq
  simp [appendData]

/-- C9: for a non-schema `post-tag:<key>:<value>` marker, `parsePostTag`
stores only the text between the second and the third colon as the field
value: anything after a further colon is silently dropped. -/
theorem parsePostTag_value_between_colons
    (i j : Nat) (tag : String) (hrf : Option String) (k v r : String)
    (htag : (jsToLower tag == "span") = false)
    (hk : k.data.all (· != ':') = true)
    (hv : v.data.all (· != ':') = true)
    (hkt : (k == "tags") = false)
    (hkc : (k == "categories") = false) :
    parsePostTag (.elem i tag hrf
        (.cons (.text j ("post-tag:" ++ k ++ ":" ++ v ++ ":" ++ r)) .nil))
      = ⟨none, some (k, parseText v)⟩ := by
  have htext : Node.textContent (.elem i tag hrf
      (.cons (.text j ("post-tag:" ++ k ++ ":" ++ v ++ ":" ++ r)) .nil))
      = "post-tag:" ++ k ++ ":" ++ v ++ ":" ++ r := by
    show ("post-tag:" ++ k ++ ":" ++ v ++ ":" ++ r) ++ "" = _
    exact stringAppendEmpty _
  have hre : "post-tag:" ++ k ++ ":" ++ v ++ ":" ++ r
      = "post-tag" ++ ":" ++ (k ++ ":" ++ (v ++ ":" ++ r)) := by
    apply stringDataEq
    simp [appendData]
  have hsplit : jsSplit ("post-tag:" ++ k ++ ":" ++ v ++ ":" ++ r) ':'
      = "post-tag" :: k :: v :: jsSplit r ':' := by
    rw [hre, jsSplit_colon_append _ _ (by decide),
      jsSplit_colon_append _ _ hk, jsSplit_colon_append _ _ hv]
  unfold parsePostTag
  have htl : Node.tagLower (.elem i tag hrf
      (.cons (.text j ("post-tag:" ++ k ++ ":" ++ v ++ ":" ++ r)) .nil))
      = jsToLower tag := rfl
  rw [htl, htext, hsplit]
  simp [htag, hkt, hkc]

/-- Closed instance of C9: with key `description` and value `hello world`,
the trailing `:tail:more` is dropped and only the value segment is stored. -/
theorem parsePostTag_value_between_colons_witness :
    parsePostTag (.elem 0 "h3" none
        (.cons (.text 1 ("post-tag:" ++ "description" ++ ":" ++ "hello world" ++ ":" ++ "tail:more")) .nil))
      = ⟨none, some ("description", parseText "hello world")⟩ :=
  parsePostTag_value_between_colons 0 1 "h3" none "description" "hello world"
    "tail:more" (by decide) (by decide) (by decide) (by decide) (by decide)

/-!
## Quote stripping in the tldr flush (claim C10)
-/

/-- C10: when a finished tldr list is flushed, each item is embedded only
after every double-quote and single-quote character has been removed
(`replace(/"/g, '')` then `replace(/'/g, '')`), so the rendered item text
never contains a quote character; and the flush appends exactly the
`tldrBlockString` fragment built from those stripped items. -/
theorem tldr_flush_strips_quotes (idx : Nat) (item : String) :
    (removeCharAll squote (removeCharAll '"' item)).data.all
        (fun c => c != '"' && c != squote) = true
    ∧ tldrItemEntry idx item
      = "\"content_list_" ++ toString idx ++ "_list_item\":\""
          ++ removeCharAll squote (removeCharAll '"' item)
          ++ "\",\"_content_list_" ++ toString idx
          ++ "_list_item\":\"field_6706bfb470c46\""
    ∧ (∀ s : St, s.rv.tldr.items.length > 0 →
        (flushList "tldr" s).rv.postContent
          = s.rv.postContent ++ tldrBlockString s.rv.tldr.items) := by
  refine ⟨?_, rfl, ?_⟩
  · rw [List.all_eq_true]
    intro c hc
    simp only [removeCharAll] at hc
    rw [List.mem_filter] at hc
    obtain ⟨hc1, hsq⟩ := hc
    rw [List.mem_filter] at hc1
    simp [hsq, hc1.2]
  · intro s hlen
    simp [flushList, hlen]

/-- Closed instance of C10: an item containing both kinds of quote is
embedded with all of them removed. -/
theorem tldr_flush_strips_quotes_witness :
    (removeCharAll squote (removeCharAll '"'
        ⟨['a', '"', 'b', squote, 'c']⟩)).data.all
        (fun c => c != '"' && c != squote) = true
    ∧ removeCharAll squote (removeCharAll '"' ⟨['a', '"', 'b', squote, 'c']⟩)
        = "abc" :=
  ⟨(tldr_flush_strips_quotes 0 ⟨['a', '"', 'b', squote, 'c']⟩).1, by decide⟩

/-!
## Taxonomy term resolution failure (claim C1)
-/

theorem lookupTerms_error_of_miss (search : String → Option (List Nat))
    (label fileName : String) (items : List String) (t : String)
    (ht : t ∈ items) (hmiss : search t = some []) :
    isErrorE (lookupTerms search label fileName items) = true := by
  induction items with
  | nil => cases ht
  | cons a rest ih =>
    by_cases ha : a = t
    · subst ha
      simp [lookupTerms, hmiss, isErrorE]
    · have htr : t ∈ rest := by
        cases ht with
        | head => exact absurd rfl ha
        | tail _ h => exact h
      have hrec := ih htr
      cases hs : search a with
      | none => simp [lookupTerms, hs, isErrorE]
      | some ids =>
        cases hh : ids.head? with
        | none => simp [lookupTerms, hs, hh, isErrorE]
        | some i =>
          by_cases hi : i = 0
          · subst hi; simp [lookupTerms, hs, hh, isErrorE]
          · cases hx : lookupTerms search label fileName rest with
            | error e =>
              simp [lookupTerms, hs, hh, hi, hx, isErrorE, Except.instMonad, Except.bind]
            | ok l =>
              rw [hx] at hrec
              simp [isErrorE] at hrec

theorem publishPost_error_of_term_miss (env : PubEnv) (bd : RV)
    (type fileName t : String) (ht : t ∈ bd.tags.items)
    (hmiss : env.tagSearch t = some []) :
    isErrorE (publishPost env bd type fileName) = true := by
  have hterms := lookupTerms_error_of_miss env.tagSearch "Term" fileName
    bd.tags.items t ht hmiss
  cases hA : env.userSearch bd.author with
  | none => simp [publishPost, hA, isErrorE, Except.instMonad, Except.bind]
  | some ids =>
    cases hh : ids.head? with
    | none => simp [publishPost, hA, hh, isErrorE, Except.instMonad, Except.bind]
    | some i =>
      by_cases hi : i = 0
      · subst hi; simp [publishPost, hA, hh, isErrorE, Except.instMonad, Except.bind]
      · cases hx : lookupTerms env.tagSearch "Term" fileName bd.tags.items with
        | error e =>
          simp [publishPost, hA, hh, hi, hx, isErrorE, Except.instMonad, Except.bind]
        | ok l =>
          rw [hx] at hterms
          simp [isErrorE] at hterms

theorem publishPost_error_of_category_miss (env : PubEnv) (bd : RV)
    (type fileName t : String) (ht : t ∈ bd.categories.items)
    (hmiss : env.categorySearch t = some []) :
    isErrorE (publishPost env bd type fileName) = true := by
  have hcats := lookupTerms_error_of_miss env.categorySearch "Taxonomy" fileName
    bd.categories.items t ht hmiss
  cases hA : env.userSearch bd.author with
  | none => simp [publishPost, hA, isErrorE, Except.instMonad, Except.bind]
  | some ids =>
    cases hh : ids.head? with
    | none => simp [publishPost, hA, hh, isErrorE, Except.instMonad, Except.bind]
    | some i =>
      by_cases hi : i = 0
      · subst hi; simp [publishPost, hA, hh, isErrorE, Except.instMonad, Except.bind]
      · cases hT : lookupTerms env.tagSearch "Term" fileName bd.tags.items with
        | error e =>
          simp [publishPost, hA, hh, hi, hT, isErrorE, Except.instMonad, Except.bind]
        | ok l =>
          cases hC : lookupTerms env.categorySearch "Taxonomy" fileName
              bd.categories.items with
          | error e =>
            simp [publishPost, hA, hh, hi, hT, hC, isErrorE, Except.instMonad,
              Except.bind]
          | ok l2 =>
            rw [hC] at hcats
            simp [isErrorE] at hcats

theorem publishPhase_append (penv : PubEnv) (type : String)
    (l1 l2 : List (String × RV)) :
    publishPhase penv type (l1 ++ l2)
      = publishPhase penv type l1 ++ publishPhase penv type l2 := by
  unfold publishPhase
  exact List.filterMap_append _ _ _

theorem publishPhase_error_skip (penv : PubEnv) (type fn : String) (bd : RV)
    (h : isErrorE (publishPost penv bd type fn) = true) :
    publishPhase penv type [(fn, bd)] = [] := by
  unfold publishPhase
  cases hx : publishPost penv bd type fn with
  | error e => simp [hx, Except.toOption]
  | ok r => rw [hx] at h; simp [isErrorE] at h

/-- C1 (amended): a tag or a category term whose name-based lookup returns
zero matches rejects the whole `Promise.all` batch, so `publishPost` throws
for the document: no write is issued and the document is not published.
The failure stays confined to that document: the sequential publish loop
over the extracted batch is unchanged by the failing document's
presence. -/
theorem term_miss_aborts_document (penv : PubEnv) (bd : RV)
    (type fn t : String) (pre post : List (String × RV))
    (hm : (t ∈ bd.tags.items ∧ penv.tagSearch t = some [])
        ∨ (t ∈ bd.categories.items ∧ penv.categorySearch t = some [])) :
    isErrorE (publishPost penv bd type fn) = true
    ∧ publishPhase penv type (pre ++ (fn, bd) :: post)
        = publishPhase penv type (pre ++ post) := by
  have herr : isErrorE (publishPost penv bd type fn) = true := by
    cases hm with
    | inl h => exact publishPost_error_of_term_miss penv bd type fn t h.1 h.2
    | inr h => exact publishPost_error_of_category_miss penv bd type fn t h.1 h.2
  refine ⟨herr, ?_⟩
  have h1 : pre ++ (fn, bd) :: post = pre ++ [(fn, bd)] ++ post := by simp
  rw [h1, publishPhase_append, publishPhase_append, publishPhase_append,
    publishPhase_error_skip penv type fn bd herr]
  simp

/-- A publish environment in which tag `alpha` resolves to id 5 and tag
`beta` finds nothing. -/
def cenvC1 : PubEnv :=
  ⟨fun _ => some [7],
   fun tg => if tg == "alpha" then some [5] else some [],
   fun _ => some [],
   fun _ => some [],
   99⟩

/-- A parsed post carrying tags `alpha` and `beta`. -/
def cbdC1 : RV :=
  {initRV with author := "jane", url := "some-slug",
               tags := ⟨["alpha", "beta"], true, none⟩}

/-- Counterexample to C1 as stated: with one resolvable and one
unresolvable tag term, `publishPost` throws — the term is not dropped and
the document is not published. -/
theorem term_miss_not_nonfatal :
    isErrorE (publishPost cenvC1 cbdC1 "playbook" "doc.html") = true := by
  decide

/-- A parsed post whose tag terms all resolve but whose category term
`gamma` finds nothing in `cenvC1`. -/
def cbdC1cat : RV :=
  {initRV with author := "jane", url := "s2",
               categories := ⟨["gamma"], true, none⟩}

/-- Closed instance of the amended C1, exercising both the tag-miss and the
category-miss branch. -/
theorem term_miss_aborts_document_witness :
    (isErrorE (publishPost cenvC1 cbdC1 "playbook" "doc.html") = true
     ∧ publishPhase cenvC1 "playbook" ([] ++ ("doc.html", cbdC1) :: [])
         = publishPhase cenvC1 "playbook" ([] ++ []))
    ∧ (isErrorE (publishPost cenvC1 cbdC1cat "playbook" "doc2.html") = true
       ∧ publishPhase cenvC1 "playbook" ([] ++ ("doc2.html", cbdC1cat) :: [])
           = publishPhase cenvC1 "playbook" ([] ++ [])) :=
  ⟨term_miss_aborts_document cenvC1 cbdC1 "playbook" "doc.html" "beta" [] []
      (Or.inl ⟨by decide, by decide⟩),
   term_miss_aborts_document cenvC1 cbdC1cat "playbook" "doc2.html" "gamma" [] []
      (Or.inr ⟨by decide, by decide⟩)⟩

/-!
## Create/update status contract of the publisher (claim C3)
-/

def createStatus (r : Except String PubResult) : Option String :=
  match r with
  | .ok ⟨_, .create p⟩ => some p.status
  | _ => none

/-- C3 (amended): whenever `publishPost` succeeds, a record found by the
existence lookup is always updated — the write is an update targeting that
record's id with a payload carrying that record's current status — and
when the lookup finds nothing the write is a create with status `draft`;
moreover when the slug is absent no existence lookup happens at all (the
whole check is guarded by `if (blogData.url)`, the by-title branch being
dead code), so the result is always a create with status `draft`. -/
theorem publish_status_contract (env : PubEnv) (bd : RV) (type fn : String)
    (r : PubResult) (h : publishPost env bd type fn = .ok r) :
    (∀ ex : ExistingPost, existingLookup env bd type = some ex →
        ∃ p, r.write = .update ex.id p ∧ p.status = ex.status)
    ∧ (existingLookup env bd type = none →
        ∃ p, r.write = .create p ∧ p.status = "draft")
    ∧ (bd.url = "" → existingLookup env bd type = none
        ∧ ∃ p, r.write = .create p ∧ p.status = "draft") := by
  cases hA : env.userSearch bd.author with
  | none => simp [publishPost, hA, Except.instMonad, Except.bind] at h
  | some ids =>
    cases hh : ids.head? with
    | none => simp [publishPost, hA, hh, Except.instMonad, Except.bind] at h
    | some i =>
      by_cases hi : i = 0
      · subst hi
        simp [publishPost, hA, hh, Except.instMonad, Except.bind] at h
      · cases hT : lookupTerms env.tagSearch "Term" fn bd.tags.items with
        | error e =>
          simp [publishPost, hA, hh, hi, hT, Except.instMonad, Except.bind] at h
        | ok termIds =>
          cases hC : lookupTerms env.categorySearch "Taxonomy" fn bd.categories.items with
          | error e =>
            simp [publishPost, hA, hh, hi, hT, hC, Except.instMonad, Except.bind] at h
          | ok catIds =>
            cases hE : existingLookup env bd type with
            | some ex =>
              simp [publishPost, hA, hh, hi, hT, hC, hE, Except.instMonad,
                Except.bind] at h
              refine ⟨?_, ?_, ?_⟩
              · intro ex2 hE2
                injection hE2 with hx
                subst hx
                rw [← h]
                exact ⟨_, rfl, rfl⟩
              · intro hnone
                exact Option.noConfusion hnone
              · intro hurl
                rw [existingLookup, hurl] at hE
                simp at hE
            | none =>
              simp [publishPost, hA, hh, hi, hT, hC, hE, Except.instMonad,
                Except.bind] at h
              refine ⟨?_, ?_, ?_⟩
              · intro ex2 hE2
                exact Option.noConfusion hE2
              · intro _
                rw [← h]
                exact ⟨_, rfl, rfl⟩
              · intro _
                rw [← h]
                exact ⟨rfl, _, rfl, rfl⟩

/-- Publish environment for the C3 counterexample: the by-title query would
find a live record, but no record matches any slug query. -/
def cenvC3 : PubEnv :=
  ⟨fun _ => some [7],
   fun _ => some [1],
   fun _ => some [1],
   fun q => match q with
     | .byTitle t => if t == "T" then some [⟨42, "publish"⟩] else some []
     | .bySlug _ => some [],
   99⟩

/-- A parsed post with a title but no slug. -/
def cbdC3 : RV := {initRV with author := "jane", title := "T", url := ""}

/-- Counterexample to C3 as stated: with no slug, the publisher performs no
existence lookup (not even by title, although a by-title query would find
an existing record with status `publish`) and issues a create with status
`draft` instead of an update preserving the existing status. -/
theorem no_slug_means_create_not_title_lookup :
    createStatus (publishPost cenvC3 cbdC3 "playbook" "f.html") = some "draft"
    ∧ cenvC3.postQuery (PostQuery.byTitle cbdC3.title) = some [⟨42, "publish"⟩] := by
  constructor
  · decide
  · decide

/-- Environment and post for the update side of the amended C3. -/
def cenvC3b : PubEnv :=
  ⟨fun _ => some [7],
   fun _ => some [1],
   fun _ => some [1],
   fun q => match q with
     | .bySlug sl => if sl == "my-slug" then some [⟨42, "publish"⟩] else some []
     | .byTitle _ => some [],
   99⟩

def cbdC3b : RV := {initRV with author := "jane", title := "T", url := "my-slug"}

def rC3b : PubResult :=
  ⟨42, .update 42
    ⟨"T", "publish", "playbook", 7, "", [], [], "my-slug",
     ⟨"", false, "", "Frequently Asked Questions", []⟩⟩⟩

/-- The concrete create issued for the slugless `cbdC3` post. -/
def rC3c : PubResult :=
  ⟨99, .create
    ⟨"T", "draft", "playbook", 7, "", [], [], "",
     ⟨"", false, "", "Frequently Asked Questions", []⟩⟩⟩

/-- Closed instance of the amended C3, exercising both sides: the found
record is updated with its current status, and the slugless post gets no
lookup and a create with status `draft`. -/
theorem publish_status_contract_witness :
    (∃ p, rC3b.write = WriteCall.update 42 p ∧ p.status = "publish")
    ∧ (existingLookup cenvC3 cbdC3 "playbook" = none
       ∧ ∃ p, rC3c.write = WriteCall.create p ∧ p.status = "draft") :=
  ⟨(publish_status_contract cenvC3b cbdC3b "playbook" "f.html" rC3b rfl).1
      ⟨42, "publish"⟩ rfl,
   (publish_status_contract cenvC3 cbdC3 "playbook" "f.html" rC3c rfl).2.2 rfl⟩

/-!
## Report-table overflow (claim C2)
-/

/-- Extraction environment with an empty media library and failing JSON
parsing; no claim document below touches either. -/
def envPlain : ExtractEnv := ⟨fun _ => some [], fun _ => none⟩

/-- One two-cell table row. -/
def reportRow (j : Nat) : Node :=
  .elem (100 + 10*j) "tr" none (nodeListOf [
    .elem (101 + 10*j) "td" none (nodeListOf [.text (102 + 10*j) "x"]),
    .elem (103 + 10*j) "td" none (nodeListOf [.text (104 + 10*j) "y"])])

/-- A `block:objects-reports` marker followed by a table with one heading
row and 15 data rows, one non-empty cell per column per row. -/
def reportDoc15 : Node := .elem 0 "body" none (nodeListOf [
  .elem 1 "h3" none (nodeListOf [.text 10 "block:objects-reports"]),
  .elem 2 "table" none (nodeListOf [
    .elem 3 "tbody" none (nodeListOf ((List.range 16).map (fun j => reportRow (j+1))))])])

/-- The four column/overflow counts of the report block. -/
def reportCounts (o : Option Obs) : Option (Nat × Nat × Nat × Nat) :=
  o.map (fun ob => (ob.objectsReports.column1.length, ob.objectsReports.column1Hover.length,
    ob.objectsReports.column2.length, ob.objectsReports.column2Hover.length))

theorem reportDoc15_counts :
    reportCounts (extractObs envPlain "f" reportDoc15) = some (13, 2, 13, 2) := by
  decide

/-- Counterexample to C2 as stated: the 15-data-row report table yields 13
items per column and 2 per overflow sequence, not 12 and 3 — the `> 12`
test lets each column reach 13 before diverting. -/
theorem report_15_rows_not_12_3 :
    reportCounts (extractObs envPlain "f" reportDoc15) = some (13, 2, 13, 2)
    ∧ reportCounts (extractObs envPlain "f" reportDoc15) ≠ some (12, 3, 12, 3) :=
  ⟨reportDoc15_counts, by rw [reportDoc15_counts]; decide⟩

/-- C2 (amended): the 15-data-row report table yields 13 items in each
column and 2 in each overflow sequence; in general a cell item is diverted
to the overflow sequence exactly when its target column already holds more
than 12 items *and* the rendered item is non-empty after trimming
(empty items always land in the main column). -/
theorem report_overflow_threshold :
    reportCounts (extractObs envPlain "f" reportDoc15) = some (13, 2, 13, 2)
    ∧ (∀ (pr : Report) (content : String),
        ((pushCell "objectsReports" pr content).column1
            = (if pr.currentLeftRow = true
                  ∧ ¬(pr.column1.length > 12 ∧ (jsTrim content).length > 0)
               then pr.column1 ++ [content] else pr.column1))
        ∧ ((pushCell "objectsReports" pr content).column1Hover
            = (if pr.currentLeftRow = true
                  ∧ pr.column1.length > 12 ∧ (jsTrim content).length > 0
               then pr.column1Hover ++ [content] else pr.column1Hover))
        ∧ ((pushCell "objectsReports" pr content).column2
            = (if pr.currentLeftRow = false
                  ∧ ¬(pr.column2.length > 12 ∧ (jsTrim content).length > 0)
               then pr.column2 ++ [content] else pr.column2))
        ∧ ((pushCell "objectsReports" pr content).column2Hover
            = (if pr.currentLeftRow = false
                  ∧ pr.column2.length > 12 ∧ (jsTrim content).length > 0
               then pr.column2Hover ++ [content] else pr.column2Hover))) := by
  refine ⟨reportDoc15_counts, ?_⟩
  intro pr content
  cases hl : pr.currentLeftRow with
  | true =>
    by_cases hgt : pr.column1.length > 12
    · by_cases hne : (jsTrim content).length > 0
      · refine ⟨?_, ?_, ?_, ?_⟩ <;> (simp [pushCell, hl, hgt, hne]; try (split <;> rfl))
      · refine ⟨?_, ?_, ?_, ?_⟩ <;> (simp [pushCell, hl, hgt, hne]; try (split <;> rfl))
    · by_cases hne : (jsTrim content).length > 0
      · refine ⟨?_, ?_, ?_, ?_⟩ <;> (simp [pushCell, hl, hgt, hne]; try (split <;> rfl))
      · refine ⟨?_, ?_, ?_, ?_⟩ <;> (simp [pushCell, hl, hgt, hne]; try (split <;> rfl))
  | false =>
    by_cases hgt : pr.column2.length > 12
    · by_cases hne : (jsTrim content).length > 0
      · refine ⟨?_, ?_, ?_, ?_⟩ <;> (simp [pushCell, hl, hgt, hne]; try (split <;> rfl))
      · refine ⟨?_, ?_, ?_, ?_⟩ <;> (simp [pushCell, hl, hgt, hne]; try (split <;> rfl))
    · by_cases hne : (jsTrim content).length > 0
      · refine ⟨?_, ?_, ?_, ?_⟩ <;> (simp [pushCell, hl, hgt, hne]; try (split <;> rfl))
      · refine ⟨?_, ?_, ?_, ?_⟩ <;> (simp [pushCell, hl, hgt, hne]; try (split <;> rfl))

/-!
## tldr list closure (claim C6)
-/

/-- A `block:tldr` marker followed by a three-item list. -/
def tldrDoc : Node := .elem 0 "body" none (nodeListOf [
  .elem 1 "h3" none (nodeListOf [.text 2 "block:tldr"]),
  .elem 3 "ul" none (nodeListOf [
    .elem 4 "li" none (nodeListOf [.text 5 "A"]),
    .elem 6 "li" none (nodeListOf [.text 7 "B"]),
    .elem 8 "li" none (nodeListOf [.text 9 "C"])])])

set_option maxRecDepth 20000 in
/-- C6: the list scope closes exactly when the visited node is an `li` that
is, or structurally contains, the captured last element child of the list
container; and the [A, B, C] tldr document yields exactly those three items
in input order while the accumulated body content is exactly the
pre-rendered tldr fragment — no item text leaks outside it. -/
theorem tldr_closure_and_no_leak :
    (∀ (node : Node) (list : ListState) (lt : String),
        (parseListBlock node list lt).1.listParsed
          = (list.listParsed
             || (node.tagLower == "li"
                 && (idEqOpt node list.lastNode
                     || (match list.lastNode with
                         | some ln => node.containsNode ln
                         | none => false)))))
    ∧ (extractObs envPlain "f" tldrDoc).map (fun o => o.tldrItems)
        = some ["A", "B", "C"]
    ∧ (extractObs envPlain "f" tldrDoc).map (fun o => o.postContent)
        = some (tldrBlockString ["A", "B", "C"]) := by
  refine ⟨?_, by decide, by decide⟩
  intro node list lt
  cases hu : node.tagLower == "ul" with
  | true =>
    have hlieq : (node.tagLower == "li") = false := by
      rw [eq_of_beq hu]; decide
    simp [parseListBlock, hu, hlieq]
  | false =>
    cases hli : node.tagLower == "li" with
    | false => simp [parseListBlock, hu, hli]
    | true =>
      cases hLast : (idEqOpt node list.lastNode
          || (match list.lastNode with
              | some ln => node.containsNode ln
              | none => false)) with
      | true =>
        rw [Bool.or_eq_true] at hLast
        cases hLast with
        | inl h1 => simp [parseListBlock, hu, hli, h1]
        | inr h2 =>
          cases hid : idEqOpt node list.lastNode with
          | true => simp [parseListBlock, hu, hli, hid]
          | false => simp [parseListBlock, hu, hli, hid, h2]
      | false =>
        rw [Bool.or_eq_false_iff] at hLast
        obtain ⟨h1, h2⟩ := hLast
        simp [parseListBlock, hu, hli, h1, h2]

/-!
## Title capture from `h1` (claim C7)
-/

theorem containsTrue {l : List Nat} {x : Nat} (h : x ∈ l) : l.contains x = true := by
  simpa using h

theorem mem_childIds_of_mem_toList :
    (kids : NodeList) → ∀ c ∈ kids.toList, c.id ∈ NodeList.childIds kids
  | .nil => by intro c hc; cases hc
  | .cons h t => by
    intro c hc
    cases hc with
    | head => simp [NodeList.childIds]
    | tail _ hmem =>
      simp only [NodeList.childIds, List.mem_cons]
      exact Or.inr (mem_childIds_of_mem_toList t c hmem)

theorem trailWith_all_processed (env : ExtractEnv) (fn : String) (fuel : Nat)
    (cs : List Node) (s : St)
    (h : ∀ c ∈ cs, s.processed.contains c.id = true) :
    trailWith (processNodeF env fn (fuel + 1)) cs s = Res.pureR s := by
  induction cs with
  | nil => rfl
  | cons c t ih =>
    have hc := h c (by simp)
    have hstep : processNodeF env fn (fuel + 1) c false s = Res.pureR (s, none) := by
      rw [processNodeF_succ]
      unfold processNodeBody
      rw [hc]
      simp
    unfold trailWith
    rw [List.foldl_cons]
    have hfirst : (Res.pureR s).bindR (fun s2 =>
        (processNodeF env fn (fuel + 1) c false s2).bindR (fun r => Res.pureR r.1))
        = Res.pureR s := by
      simp [Res.bindR, Res.pureR, hstep]
    unfold trailWith at ih
    rw [hfirst]
    exact ih (fun d hd => h d (by simp [hd]))
/-- C7 (amended): every `h1` reached with no open scope sets the title to
the whitespace-normalized text of its subtree and marks its direct children
consumed, leaving everything else (in particular `postContent`) untouched —
so the subtree never reaches body content, and with several `h1` elements
the *last* one determines the final title. -/
theorem h1_sets_title_subtree_consumed :
    (∀ (env : ExtractEnv) (fn : String) (fuel i : Nat) (tag : String)
        (hrf : Option String) (kids : NodeList) (s : St),
        jsToLower tag = "h1" →
        s.inList = none → s.inTable = none →
        s.processed.contains i = false →
        processNodeF env fn (fuel + 2) (.elem i tag hrf kids) false s
          = Res.pureR (St.mk {s.rv with title := parseText (NodeList.textConcat kids)}
              s.inList s.inTable
              (NodeList.childIds kids ++ i :: s.processed), none))
    ∧ (extractObs envPlain "f" (.elem 0 "body" none (nodeListOf [
          .elem 1 "h1" none (nodeListOf [.text 2 "A"]),
          .elem 3 "h1" none (nodeListOf [.text 4 "B"]),
          .elem 5 "p" none (nodeListOf [.text 6 "C"])]))).map
        (fun o => (o.title, o.postContent))
        = some ("B", "<!-- wp:paragraph -->\n<p>C</p>\n<!-- /wp:paragraph -->\n") := by
  constructor
  · intro env fn fuel i tag hrf kids s htag hin hit hproc
    have hcont : ∀ c ∈ kids.toList,
        (St.mk {s.rv with title := parseText (NodeList.textConcat kids)}
          none none
          (NodeList.childIds kids ++ i :: s.processed)).processed.contains c.id = true := by
      intro c hc
      exact containsTrue (by simp [mem_childIds_of_mem_toList kids c hc])
    have htr := trailWith_all_processed env fn fuel kids.toList _ hcont
    rw [processNodeF_succ]
    unfold processNodeBody
    have hid : (Node.elem i tag hrf kids).id = i := rfl
    rw [hid, hproc]
    simp only [Bool.false_eq_true, if_false, htag, hin, hit]
    have hb1 : ("h1" != "body" && !false) = true := by decide
    have hb2 : ("h1" == "h1") = true := by decide
    simp only [hb1, hb2, if_true]
    simp only [monadRes, Res.bindR, Res.pureR, htr]
  · decide

/-- Document with two top-level `h1` elements and a paragraph. -/
def doc2h1 : Node := .elem 0 "body" none (nodeListOf [
  .elem 1 "h1" none (nodeListOf [.text 2 "A"]),
  .elem 3 "h1" none (nodeListOf [.text 4 "B"]),
  .elem 5 "p" none (nodeListOf [.text 6 "C"])])

theorem doc2h1_title :
    (extractObs envPlain "f" doc2h1).map (fun o => o.title) = some "B" := by
  decide

/-- Counterexample to C7 as stated: with two `h1` elements the title comes
from the *last* one — every `h1` overwrites the title, there is no
first-only guard. -/
theorem multiple_h1_title_from_last_not_first :
    (extractObs envPlain "f" doc2h1).map (fun o => o.title) = some "B"
    ∧ (extractObs envPlain "f" doc2h1).map (fun o => o.title) ≠ some "A" :=
  ⟨doc2h1_title, by rw [doc2h1_title]; decide⟩

/-- Closed instance of the amended C7. -/
theorem h1_sets_title_subtree_consumed_witness :
    processNodeF envPlain "f" (0 + 2)
        (.elem 1 "h1" none (nodeListOf [.text 2 "A"])) false
        (St.mk initRV none none [])
      = Res.pureR (St.mk
          {(St.mk initRV none none []).rv with
            title := parseText (NodeList.textConcat (nodeListOf [.text 2 "A"]))}
          none none
          (NodeList.childIds (nodeListOf [.text 2 "A"]) ++ 1 :: []), none) :=
  h1_sets_title_subtree_consumed.1 envPlain "f" 0 1 "h1" none
    (nodeListOf [.text 2 "A"]) (St.mk initRV none none [])
    (by decide) rfl rfl (by decide)

/-!
## Schema marker resilience (claim C5)
-/

theorem processNodeF_text (env : ExtractEnv) (fn : String) (fuel j : Nat)
    (c : String) (s : St) (h : s.processed.contains j = false) :
    processNodeF env fn (fuel + 1) (.text j c) false s
      = Res.pureR ({s with processed := j :: s.processed}, none) := by
  rw [processNodeF_succ]
  unfold processNodeBody
  rw [show (Node.text j c).id = j from rfl, h]
  simp

theorem trailWith_single_text (visit : Node → Bool → St → Res (St × Option String))
    (j : Nat) (c : String) (s : St)
    (h : visit (.text j c) false s
        = Res.pureR ({s with processed := j :: s.processed}, none)) :
    trailWith visit [.text j c] s
      = Res.pureR {s with processed := j :: s.processed} := by
  unfold trailWith
  simp [List.foldl_cons, Res.bindR, Res.pureR, h]

/-- Document with an invalid-JSON schema marker between the title and a
paragraph. -/
def c5docWith : Node := .elem 0 "body" none (nodeListOf [
  .elem 1 "h1" none (nodeListOf [.text 2 "T"]),
  .elem 3 "h3" none (nodeListOf [.text 4 "post-tag:schema:\x7boops\x7d"]),
  .elem 5 "p" none (nodeListOf [.text 6 "Hello"])])

/-- The same document without the marker heading (identities unchanged). -/
def c5docWithout : Node := .elem 0 "body" none (nodeListOf [
  .elem 1 "h1" none (nodeListOf [.text 2 "T"]),
  .elem 5 "p" none (nodeListOf [.text 6 "Hello"])])

/-- C5: a heading whose `post-tag:schema:` payload fails to parse as JSON is
handled without aborting: processing the node only sets the schema field to
the empty string and marks the node consumed (no other state change, no
error), and on a whole document the extraction result equals that of the
same document without the marker, with an empty schema. -/
theorem invalid_schema_marker_recoverable :
    (∀ (env : ExtractEnv) (fn : String) (fuel i j : Nat) (tag : String)
        (hrf : Option String) (c : String) (s : St) (cap : String),
        (jsToLower tag == "h2" || jsToLower tag == "h3" || jsToLower tag == "h4") = true →
        s.inList = none → s.inTable = none →
        s.processed.contains i = false →
        ((i :: s.processed).contains j) = false →
        jsIncludes c "post-tag:" = true →
        jsIncludes c "post-tag:schema:" = true →
        (parsePostTag (.elem i tag hrf (.cons (.text j c) .nil))).inList = none →
        schemaMatch c = some cap →
        env.jsonParse (jsTrim cap) = none →
        processNodeF env fn (fuel + 2) (.elem i tag hrf (.cons (.text j c) .nil)) false s
          = Res.pureR (St.mk {s.rv with schema := ""} s.inList s.inTable
              (j :: i :: s.processed), none))
    ∧ extractObs envPlain "f" c5docWith = extractObs envPlain "f" c5docWithout
    ∧ (extractObs envPlain "f" c5docWith).map (fun o => o.schema) = some "" := by
  refine ⟨?_, by decide, by decide⟩
  intro env fn fuel i j tag hrf c s cap htag hin hit hproc hprocj hpt hpts hpl hsm hjp
  have htxt : NodeList.textConcat (.cons (.text j c) .nil) = c := by
    show c ++ "" = c
    exact stringAppendEmpty c
  have hchild : processNodeF env fn (fuel + 1) (.text j c) false
      (St.mk {s.rv with schema := ""} none none (i :: s.processed))
      = Res.pureR ({(St.mk {s.rv with schema := ""} none none (i :: s.processed)) with
          processed := j :: i :: s.processed}, none) :=
    processNodeF_text env fn fuel j c _ hprocj
  have htr := trailWith_single_text (processNodeF env fn (fuel + 1)) j c
    (St.mk {s.rv with schema := ""} none none (i :: s.processed)) hchild
  rw [Bool.or_eq_true, Bool.or_eq_true] at htag
  rcases htag with (h2 | h3) | h4
  · have htg : jsToLower tag = "h2" := eq_of_beq h2
    rw [processNodeF_succ]
    unfold processNodeBody
    rw [show (Node.elem i tag hrf (.cons (.text j c) .nil)).id = i from rfl, hproc]
    simp only [Bool.false_eq_true, if_false, htg, hin, hit, htxt, hpt, hpts, hsm, hjp, hpl]
    simp only [monadRes, Res.bindR, Res.pureR]
    simp [NodeList.toList, htr, Res.pureR]
  · have htg : jsToLower tag = "h3" := eq_of_beq h3
    rw [processNodeF_succ]
    unfold processNodeBody
    rw [show (Node.elem i tag hrf (.cons (.text j c) .nil)).id = i from rfl, hproc]
    simp only [Bool.false_eq_true, if_false, htg, hin, hit, htxt, hpt, hpts, hsm, hjp, hpl]
    simp only [monadRes, Res.bindR, Res.pureR]
    simp [NodeList.toList, htr, Res.pureR]
  · have htg : jsToLower tag = "h4" := eq_of_beq h4
    rw [processNodeF_succ]
    unfold processNodeBody
    rw [show (Node.elem i tag hrf (.cons (.text j c) .nil)).id = i from rfl, hproc]
    simp only [Bool.false_eq_true, if_false, htg, hin, hit, htxt, hpt, hpts, hsm, hjp, hpl]
    simp only [monadRes, Res.bindR, Res.pureR]
    simp [NodeList.toList, htr, Res.pureR]

/-- Closed instance of C5's marker step. -/
theorem invalid_schema_marker_recoverable_witness :
    processNodeF envPlain "f" (0 + 2)
        (.elem 3 "h3" none (.cons (.text 4 "post-tag:schema:\x7boops\x7d") .nil)) false
        (St.mk initRV none none [])
      = Res.pureR (St.mk {initRV with schema := ""} none none [4, 3], none) :=
  invalid_schema_marker_recoverable.1 envPlain "f" 0 3 4 "h3" none
    "post-tag:schema:\x7boops\x7d" (St.mk initRV none none []) "\x7boops\x7d"
    (by decide) rfl rfl (by decide) (by decide) (by decide) (by decide)
    (by decide) (by decide) rfl

/-!
## Fatal image failure (claim C4)
-/

theorem bindR_pure_right {α : Type} (r : Res α) : r.bindR Res.pureR = r := by
  cases r with
  | none => rfl
  | some x => cases x <;> rfl

theorem bindR_assoc {α β γ : Type} (r : Res α) (f : α → Res β) (g : β → Res γ) :
    (r.bindR f).bindR g = r.bindR (fun a => (f a).bindR g) := by
  cases r with
  | none => rfl
  | some x => cases x <;> rfl

theorem trailWith_res_acc (visit : Node → Bool → St → Res (St × Option String))
    (l : List Node) : ∀ (r : Res St),
    List.foldl (fun acc h => acc.bindR (fun s =>
      (visit h false s).bindR (fun r2 => Res.pureR r2.1))) r l
      = r.bindR (fun s => trailWith visit l s) := by
  induction l with
  | nil =>
    intro r
    simp only [List.foldl_nil]
    rw [show (fun s => trailWith visit ([] : List Node) s) = Res.pureR from rfl]
    exact (bindR_pure_right r).symm
  | cons h t ih =>
    intro r
    rw [List.foldl_cons, ih]
    cases r with
    | none => rfl
    | some x =>
      cases x with
      | error e => rfl
      | ok a =>
        show ((visit h false a).bindR (fun r2 => Res.pureR r2.1)).bindR
            (fun s => trailWith visit t s)
          = trailWith visit (h :: t) a
        have hr : trailWith visit (h :: t) a
            = List.foldl (fun acc h2 => acc.bindR (fun s =>
                (visit h2 false s).bindR (fun r2 => Res.pureR r2.1)))
              ((Res.pureR a).bindR (fun s =>
                (visit h false s).bindR (fun r2 => Res.pureR r2.1))) t := by
          unfold trailWith
          rw [List.foldl_cons]
        rw [hr, ih]
        rfl

theorem trailWith_cons (visit : Node → Bool → St → Res (St × Option String))
    (h : Node) (t : List Node) (s : St) :
    trailWith visit (h :: t) s
      = (visit h false s).bindR (fun r => trailWith visit t r.1) := by
  unfold trailWith
  rw [List.foldl_cons, trailWith_res_acc]
  show ((Res.pureR s).bindR (fun s2 =>
      (visit h false s2).bindR (fun r2 => Res.pureR r2.1))).bindR
      (fun s2 => trailWith visit t s2) = _
  rw [show ((Res.pureR s).bindR (fun s2 =>
      (visit h false s2).bindR (fun r2 => Res.pureR r2.1)))
      = (visit h false s).bindR (fun r2 => Res.pureR r2.1) from rfl]
  rw [bindR_assoc]
  rfl

theorem trailWith_append (visit : Node → Bool → St → Res (St × Option String))
    (l1 l2 : List Node) (s : St) :
    trailWith visit (l1 ++ l2) s
      = (trailWith visit l1 s).bindR (fun s2 => trailWith visit l2 s2) := by
  induction l1 generalizing s with
  | nil =>
    simp only [List.nil_append]
    rfl
  | cons h t ih =>
    rw [List.cons_append, trailWith_cons, trailWith_cons, bindR_assoc]
    congr 1
    funext r
    exact ih r.1

/-- A heading carrying a `content:image` marker whose media resolution
throws aborts the walk with that error (the trailing child loop is never
reached). -/
theorem image_miss_step (env : ExtractEnv) (fn : String) (fuel i : Nat)
    (tag : String) (hrf : Option String) (kids : NodeList) (s : St) (e : String)
    (htag : (jsToLower tag == "h2" || jsToLower tag == "h3" || jsToLower tag == "h4") = true)
    (hin : s.inList = none) (hit : s.inTable = none)
    (hproc : s.processed.contains i = false)
    (hnpt : jsIncludes (NodeList.textConcat kids) "post-tag:" = false)
    (hci : jsIncludes (jsToLower (NodeList.textConcat kids)) "content:image" = true)
    (herr : parseContentImageTag env (.elem i tag hrf kids) fn = .error e) :
    processNodeF env fn (fuel + 1) (.elem i tag hrf kids) false s
      = some (.error e) := by
  rw [Bool.or_eq_true, Bool.or_eq_true] at htag
  rw [processNodeF_succ]
  unfold processNodeBody
  rw [show (Node.elem i tag hrf kids).id = i from rfl, hproc]
  rcases htag with (h2 | h3) | h4
  · have htg : jsToLower tag = "h2" := eq_of_beq h2
    simp [htg, hin, hit, hnpt, hci, herr, Res.throwR, monadRes, Res.bindR]
  · have htg : jsToLower tag = "h3" := eq_of_beq h3
    simp [htg, hin, hit, hnpt, hci, herr, Res.throwR, monadRes, Res.bindR]
  · have htg : jsToLower tag = "h4" := eq_of_beq h4
    simp [htg, hin, hit, hnpt, hci, herr, Res.throwR, monadRes, Res.bindR]

/-- C4: a document whose body contains (at top level, with no scope open at
that point) a heading referencing an image that the media search cannot
resolve aborts extraction with that fatal error, so the batch issues zero
target-system writes for it, while the rest of the batch runs exactly as
if the document were absent. -/
theorem image_miss_fatal_per_document
    (env : ExtractEnv) (penv : PubEnv) (fn ty : String) (F bId i : Nat)
    (hrfB hrf : Option String) (tag : String) (kidsB kids : NodeList)
    (pre post : List Node) (s1 : St) (e : String)
    (bf1 bf2 : List BatchFile)
    (hks : kidsB.toList = pre ++ (Node.elem i tag hrf kids) :: post)
    (hdepth : Node.depth (.elem bId "body" hrfB kidsB) = F + 1)
    (hpre : trailWith (processNodeF env fn (F + 1)) pre
        (St.mk initRV none none [bId]) = Res.pureR s1)
    (htag : (jsToLower tag == "h2" || jsToLower tag == "h3"
        || jsToLower tag == "h4") = true)
    (hin : s1.inList = none) (hit : s1.inTable = none)
    (hproc : s1.processed.contains i = false)
    (hnpt : jsIncludes (NodeList.textConcat kids) "post-tag:" = false)
    (hci : jsIncludes (jsToLower (NodeList.textConcat kids)) "content:image" = true)
    (herr : parseContentImageTag env (.elem i tag hrf kids) fn = .error e) :
    extractRun env fn (.elem bId "body" hrfB kidsB) = some (.error e)
    ∧ runBatch env penv ty (bf1 ++ ⟨fn, .elem bId "body" hrfB kidsB⟩ :: bf2)
        = runBatch env penv ty (bf1 ++ bf2) := by
  have hstep := image_miss_step env fn F i tag hrf kids s1 e htag hin hit hproc
    hnpt hci herr
  have hrun : extractRun env fn (.elem bId "body" hrfB kidsB) = some (.error e) := by
    unfold extractRun
    rw [hdepth, processNodeF_succ]
    unfold processNodeBody
    rw [show (Node.elem bId "body" hrfB kidsB).id = bId from rfl]
    rw [show ([] : List Nat).contains bId = false from rfl]
    simp only [Bool.false_eq_true, if_false,
      show ((jsToLower "body") != "body" && !false) = false from by decide,
      Bool.false_and]
    rw [hks, trailWith_append, hpre]
    rw [show (Res.pureR s1).bindR (fun s2 => trailWith (processNodeF env fn (F + 1))
        ((Node.elem i tag hrf kids) :: post) s2)
      = trailWith (processNodeF env fn (F + 1))
          ((Node.elem i tag hrf kids) :: post) s1 from rfl]
    rw [trailWith_cons, hstep]
    rfl
  have hok : extractOk env fn (.elem bId "body" hrfB kidsB) = none := by
    unfold extractOk
    rw [hrun]
  refine ⟨hrun, ?_⟩
  unfold runBatch extractPhase
  rw [show bf1 ++ (⟨fn, .elem bId "body" hrfB kidsB⟩ : BatchFile) :: bf2
      = bf1 ++ [⟨fn, .elem bId "body" hrfB kidsB⟩] ++ bf2 from by simp]
  rw [List.filterMap_append, List.filterMap_append, List.filterMap_append]
  simp [hok]

def c4kids : NodeList := nodeListOf [.text 12 "content:image:missing"]

def c4err : String :=
  "Error fetching image from WordPress: No image found for name: missing in bad.docx in bad.docx"

def penvC4 : PubEnv :=
  ⟨fun _ => some [7], fun _ => some [3], fun _ => some [4], fun _ => some [], 99⟩

def c4good : BatchFile := ⟨"good.docx", .elem 20 "body" none .nil⟩

theorem image_miss_fatal_per_document_witness :
    extractRun envPlain "bad.docx"
        (.elem 10 "body" none (nodeListOf [.elem 11 "h2" none c4kids]))
      = some (.error c4err)
    ∧ runBatch envPlain penvC4 "post"
        ([c4good] ++ (⟨"bad.docx",
            .elem 10 "body" none (nodeListOf [.elem 11 "h2" none c4kids])⟩ : BatchFile) :: [])
      = runBatch envPlain penvC4 "post" ([c4good] ++ []) :=
  image_miss_fatal_per_document envPlain penvC4 "bad.docx" "post" 2 10 11 none none
    "h2" (nodeListOf [.elem 11 "h2" none c4kids]) c4kids [] []
    ⟨initRV, none, none, [10]⟩ c4err [c4good] []
    rfl rfl rfl (by decide) rfl rfl (by decide) (by decide) (by decide) rfl
